import Mathlib

/-!
# AeroControl front-end script (`main.js`)

A shallow embedding of the two copies of `main.js`

* `src/airline_app/static/airline_app/js/main.js` (namespace `App`), and
* `src/staticfiles/airline_app/js/main.js` (namespace `Staticfiles`),

over a small model of the host page: the elements of the document addressed by
their position in document order, the parent of each element, a virtual clock
with a timer queue, and event listeners.

Modelling decisions for the host (the browser is not part of the repository):

* the document is the sequence of its elements in document order; an element
  handle is its position in `Page.elements`, which never changes:
  `element.remove()` clears the `isConnected` flag of the element, detaches it
  from its parent and keeps the slot, so handles held by closures stay valid
  after the element left the document;
* `Page.parents` gives the parent element of each element (none for a child of
  the document body); a parent precedes its children in document order, so an
  entry that does not point to an earlier element is read as none;
* a click is dispatched on its target and then bubbles through the ancestors
  of the target, running the click listeners of each in turn;
* `isConnected` is recorded per element: `element.remove()` clears it for the
  removed element, not for the elements nested in it, so the statements about
  removal speak of the removed elements themselves;
* `classList` is an ordered list of tokens; `add` appends a missing token,
  `toggle` removes a present token and appends a missing one;
* timers fire in order of their due time, ties in scheduling order, and a
  timer fires exactly at its due time on the virtual clock;
* a statement that throws ends the function it is in; the effects before the
  throw stay (`Outcome` keeps the page together with the error).
-/

namespace AeroControl

/-! ## Data model -/

/-- Errors a statement of the script can raise. -/
inductive JsError where
  | referenceError
  | typeError
  deriving DecidableEq, Repr

/-- The `extend` object of the theme: palettes by name, font families by name. -/
structure Extend where
  colors : List (String × List (String × String))
  fontFamily : List (String × List String)
  deriving DecidableEq, Repr

/-- The `theme` object of the configuration. -/
structure Theme where
  extend : Extend
  deriving DecidableEq, Repr

/-- The object literal assigned to `tailwind.config`. -/
structure Config where
  darkMode : String
  theme : Theme
  deriving DecidableEq, Repr

/-- What the identifier `tailwind` is bound to when the script is evaluated. -/
inductive Global where
  | undeclared
  | undefinedValue
  | nullValue
  | object (config : Option Config)
  deriving DecidableEq, Repr

/-- An element of the document. -/
structure Element where
  id : Option String
  classList : List String
  isConnected : Bool
  deriving DecidableEq, Repr

/-- The two timer callbacks of the script: the function passed to `setTimeout`
in the load handler (it calls `closeMessage(message)`) and the arrow function
passed to `setTimeout` in `closeMessage` (it calls `element.remove()`). -/
inductive Callback where
  | dismiss (message : Nat)
  | removeElement (element : Nat)
  deriving DecidableEq, Repr

/-- A pending timer. -/
structure Timer where
  due : Nat
  callback : Callback
  deriving DecidableEq, Repr

/-- The two click handlers of the script with the variables they close over
(the results of `getElementById`, an element or null). -/
inductive Handler where
  | resourcesClick (resourcesMenu resourcesIcon : Option Nat)
  | toolsClick (toolsMenu toolsIcon : Option Nat)
  deriving DecidableEq, Repr

/-- A listener attached to an element. -/
structure Listener where
  target : Nat
  event : String
  handler : Handler
  deriving DecidableEq, Repr

/-- The load handlers of the two copies of the script. -/
inductive DocHandler where
  | appLoaded
  | staticfilesLoaded
  deriving DecidableEq, Repr

/-- A listener attached to the document. -/
structure DocListener where
  event : String
  handler : DocHandler
  deriving DecidableEq, Repr

/-- The state of the page. -/
structure Page where
  tailwind : Global
  elements : List Element
  now : Nat
  timers : List Timer
  listeners : List Listener
  documentListeners : List DocListener
  parents : List (Option Nat)
  deriving DecidableEq, Repr

/-- The page and the error raised, if any. -/
structure Outcome where
  page : Page
  error : Option JsError
  deriving DecidableEq, Repr

/-- Sequencing of statements: the next statement runs unless one threw. -/
def Outcome.andThen (o : Outcome) (f : Page → Outcome) : Outcome :=
  match o.error with
  | none => f o.page
  | some _ => o

/-- A page at time 0, before any script ran, every element a child of the
document body. -/
def Page.fresh (tailwind : Global) (elements : List Element) : Page :=
  { tailwind := tailwind, elements := elements, now := 0, timers := [],
    listeners := [], documentListeners := [], parents := [] }

/-! ## Host operations -/

/-- Apply `f` to the element with handle `i`. -/
def updateElement (elements : List Element) (i : Nat) (f : Element → Element) :
    List Element :=
  match elements[i]? with
  | some e => elements.set i (f e)
  | none => elements

/-- The tokens after `classList.add(token)`. -/
def addToken (token : String) (classList : List String) : List String :=
  if token ∈ classList then classList else classList ++ [token]

/-- The tokens after `classList.toggle(token)`. -/
def toggleToken (token : String) (classList : List String) : List String :=
  if token ∈ classList then classList.filter (fun c => c ≠ token)
  else classList ++ [token]

/-- Effect of `element.classList.add(token)` on the element. -/
def Element.addClass (token : String) (e : Element) : Element :=
  { e with classList := addToken token e.classList }

/-- Effect of `element.classList.toggle(token)` on the element. -/
def Element.toggleClass (token : String) (e : Element) : Element :=
  { e with classList := toggleToken token e.classList }

/-- Effect of `element.remove()` on the element. -/
def Element.detach (e : Element) : Element :=
  { e with isConnected := false }

/-- The call `element.classList.add(token)`. -/
def classListAdd (p : Page) (element : Nat) (token : String) : Page :=
  { p with elements := updateElement p.elements element (Element.addClass token) }

/-- The call `element.classList.toggle(token)`, `element` an element or null:
on null the property access throws a TypeError. -/
def classListToggle (p : Page) (element : Option Nat) (token : String) : Outcome :=
  match element with
  | none => ⟨p, some JsError.typeError⟩
  | some i =>
    ⟨{ p with elements := updateElement p.elements i (Element.toggleClass token) }, none⟩

/-- The call `element.remove()`: the element leaves the document and has no
parent any more. -/
def remove (p : Page) (element : Nat) : Page :=
  { p with
    elements := updateElement p.elements element Element.detach,
    parents := p.parents.set element none }

/-- The call `setTimeout(callback, delay)`. -/
def setTimeout (p : Page) (callback : Callback) (delay : Nat) : Page :=
  { p with timers := p.timers ++ [⟨p.now + delay, callback⟩] }

/-- The call `target.addEventListener(event, handler)`, `target` an element or
null: on null the property access throws a TypeError. -/
def addEventListener (p : Page) (target : Option Nat) (event : String)
    (handler : Handler) : Outcome :=
  match target with
  | none => ⟨p, some JsError.typeError⟩
  | some t => ⟨{ p with listeners := p.listeners ++ [⟨t, event, handler⟩] }, none⟩

/-- The call `document.addEventListener(event, handler)`. -/
def documentAddEventListener (p : Page) (event : String) (handler : DocHandler) : Page :=
  { p with documentListeners := p.documentListeners ++ [⟨event, handler⟩] }

/-- Whether the element with handle `i` is in the document. -/
def isConnected (elements : List Element) (i : Nat) : Bool :=
  match elements[i]? with
  | some e => e.isConnected
  | none => false

/-- Whether the element with handle `i` carries the class `token`. -/
def hasClass (elements : List Element) (i : Nat) (token : String) : Bool :=
  match elements[i]? with
  | some e => decide (token ∈ e.classList)
  | none => false

/-- Whether the element with handle `i` has the id `name`. -/
def hasId (elements : List Element) (i : Nat) (name : String) : Bool :=
  match elements[i]? with
  | some e => decide (e.id = some name)
  | none => false

/-- The call `document.querySelectorAll('.' + token)` with a class selector:
the handles of the elements of the document that carry the class `token`, in
document order. -/
def querySelectorAll (p : Page) (token : String) : List Nat :=
  (List.range p.elements.length).filter
    (fun i => isConnected p.elements i && hasClass p.elements i token)

/-- The call `document.getElementById(name)`: the first element of the
document with that id, or null. -/
def getElementById (p : Page) (name : String) : Option Nat :=
  (List.range p.elements.length).find?
    (fun i => isConnected p.elements i && hasId p.elements i name)

/-- Truthiness of an element-or-null value. -/
def truthy (v : Option Nat) : Bool := v.isSome

/-! ## The script -/

/-- The object literal of `main.js` lines 4-28. -/
def tailwindConfig : Config :=
  { darkMode := "class",
    theme :=
      { extend :=
          { colors :=
              [("dark",
                [("50", "#f8fafc"),
                 ("100", "#f1f5f9"),
                 ("200", "#e2e8f0"),
                 ("300", "#cbd5e1"),
                 ("400", "#94a3b8"),
                 ("500", "#64748b"),
                 ("600", "#475569"),
                 ("700", "#334155"),
                 ("800", "#1e293b"),
                 ("900", "#0f172a"),
                 ("950", "#020617")])],
            fontFamily := [("sans", ["Inter", "sans-serif"])] } } }

/-- The statement `tailwind.config = { ... };`: resolving the identifier
`tailwind` throws a ReferenceError when it is not declared, and setting a
property of undefined or null throws a TypeError. -/
def assignTailwindConfig (p : Page) : Outcome :=
  match p.tailwind with
  | Global.undeclared => ⟨p, some JsError.referenceError⟩
  | Global.undefinedValue => ⟨p, some JsError.typeError⟩
  | Global.nullValue => ⟨p, some JsError.typeError⟩
  | Global.object _ => ⟨{ p with tailwind := Global.object (some tailwindConfig) }, none⟩

/-- The function `closeMessage(element)` of `main.js` lines 31-36. -/
def closeMessage (p : Page) (element : Nat) : Page :=
  let p := classListAdd p element "message-fade-out"
  setTimeout p (Callback.removeElement element) 300

/-- Run a click handler (`main.js` lines 53-56 and 65-68). -/
def runHandler (p : Page) : Handler → Outcome
  | Handler.resourcesClick resourcesMenu resourcesIcon =>
    (classListToggle p resourcesMenu "hidden").andThen fun p =>
    classListToggle p resourcesIcon "rotate-180"
  | Handler.toolsClick toolsMenu toolsIcon =>
    (classListToggle p toolsMenu "hidden").andThen fun p =>
    classListToggle p toolsIcon "rotate-180"

namespace App

/-- The load handler of `src/airline_app/static/airline_app/js/main.js`,
lines 39-70. -/
def onDOMContentLoaded (p : Page) : Outcome :=
  let messages := querySelectorAll p "alert-message"
  let p := messages.foldl
    (fun p message => setTimeout p (Callback.dismiss message) 5000) p
  -- Mobile Resources submenu toggle
  let resourcesToggle := getElementById p "mobile-resources-toggle"
  let resourcesMenu := getElementById p "mobile-resources-menu"
  let resourcesIcon := getElementById p "mobile-resources-icon"
  let o : Outcome :=
    if truthy resourcesToggle && truthy resourcesMenu && truthy resourcesIcon then
      addEventListener p resourcesToggle "click"
        (Handler.resourcesClick resourcesMenu resourcesIcon)
    else ⟨p, none⟩
  o.andThen fun p =>
  -- Mobile Tools submenu toggle
  let toolsToggle := getElementById p "mobile-tools-toggle"
  let toolsMenu := getElementById p "mobile-tools-menu"
  let toolsIcon := getElementById p "mobile-tools-icon"
  if truthy toolsToggle && truthy toolsMenu && truthy toolsIcon then
    addEventListener p toolsToggle "click" (Handler.toolsClick toolsMenu toolsIcon)
  else ⟨p, none⟩

/-- Evaluation of the script: the theme assignment (lines 4-28), then the
registration of the load handler (line 39). -/
def evalScript (p : Page) : Outcome :=
  (assignTailwindConfig p).andThen fun p =>
  ⟨documentAddEventListener p "DOMContentLoaded" DocHandler.appLoaded, none⟩

end App

namespace Staticfiles

/-- The load handler of `src/staticfiles/airline_app/js/main.js`, lines 39-46. -/
def onDOMContentLoaded (p : Page) : Outcome :=
  let messages := querySelectorAll p "alert-message"
  let p := messages.foldl
    (fun p message => setTimeout p (Callback.dismiss message) 5000) p
  ⟨p, none⟩

/-- Evaluation of the script: the theme assignment (lines 4-28), then the
registration of the load handler (line 39). -/
def evalScript (p : Page) : Outcome :=
  (assignTailwindConfig p).andThen fun p =>
  ⟨documentAddEventListener p "DOMContentLoaded" DocHandler.staticfilesLoaded, none⟩

end Staticfiles

/-! ## The event loop -/

/-- Run a load handler. -/
def runDocHandler (p : Page) : DocHandler → Outcome
  | DocHandler.appLoaded => App.onDOMContentLoaded p
  | DocHandler.staticfilesLoaded => Staticfiles.onDOMContentLoaded p

/-- Run the listeners one after the other; a listener that throws does not
stop the later ones, and the first error is the one kept. -/
def runAll {α : Type} (run : Page → α → Outcome) (ls : List α) (p : Page) : Outcome :=
  ls.foldl
    (fun o l =>
      let o2 := run o.page l
      ⟨o2.page, if o.error.isSome then o.error else o2.error⟩)
    ⟨p, none⟩

/-- Dispatch of the `DOMContentLoaded` event on the document. -/
def dispatchDOMContentLoaded (p : Page) : Outcome :=
  runAll (fun p l => runDocHandler p l.handler)
    (p.documentListeners.filter (fun l => l.event = "DOMContentLoaded")) p

/-- The parent element of the element `i`, if it has one. -/
def parentElement (p : Page) (i : Nat) : Option Nat :=
  match p.parents[i]? with
  | some (some j) => if j < i then some j else none
  | _ => none

/-- The ancestors of the element `i`, the nearest first; `fuel` bounds their
number. -/
def ancestors (p : Page) : Nat → Nat → List Nat
  | 0, _ => []
  | fuel + 1, i =>
    match parentElement p i with
    | none => []
    | some j => j :: ancestors p fuel j

/-- The propagation path of an event dispatched on `target`: the target, then
its ancestors from the nearest to the farthest. An ancestor has a smaller
handle than `target`, so `target` bounds their number. -/
def eventPath (p : Page) (target : Nat) : List Nat :=
  target :: ancestors p target target

/-- The click listeners a click on `target` runs, in order: those of the
target, then those of each ancestor (the script registers bubbling listeners
and never stops the propagation). -/
def clickListeners (p : Page) (target : Nat) : List Listener :=
  (eventPath p target).flatMap fun node =>
    p.listeners.filter (fun l => l.target = node && l.event = "click")

/-- Dispatch of a `click` event on the element `target`. -/
def click (p : Page) (target : Nat) : Outcome :=
  runAll (fun p l => runHandler p l.handler) (clickListeners p target) p

/-- The outcome of `n` clicks on `target` in a row. -/
def clicks : Nat → Nat → Page → Outcome
  | 0, _, p => ⟨p, none⟩
  | n + 1, target, p => (clicks n target p).andThen fun p => click p target

/-- Run a timer callback. -/
def runCallback (p : Page) : Callback → Page
  | Callback.dismiss message => closeMessage p message
  | Callback.removeElement element => remove p element

/-- The timer that fires next: the earliest due one, the first scheduled
among those due at the same time. -/
def earliest : List Timer → Option Timer
  | [] => none
  | t :: ts =>
    match earliest ts with
    | none => some t
    | some u => if t.due ≤ u.due then some t else some u

/-- Fire the timer `t`: the clock moves to its due time, it leaves the queue,
its callback runs. -/
def fire (p : Page) (t : Timer) : Page :=
  runCallback { p with now := max p.now t.due, timers := p.timers.erase t } t.callback

/-- Fire the next timer, if there is one. -/
def fireNext (p : Page) : Page :=
  match earliest p.timers with
  | none => p
  | some t => fire p t

/-- Fire, in order, the timers due at or before `t`; `fuel` bounds the number
of timers fired. -/
def fireDue : Nat → Nat → Page → Page
  | 0, _, p => p
  | fuel + 1, t, p =>
    match earliest p.timers with
    | none => p
    | some tm => if tm.due ≤ t then fireDue fuel t (fire p tm) else p

/-- The number of firings a callback can cause: a dismissal schedules one
removal, a removal schedules nothing. -/
def Callback.weight : Callback → Nat
  | Callback.dismiss _ => 2
  | Callback.removeElement _ => 1

/-- A bound on the number of firings the pending timers can cause. -/
def weight (timers : List Timer) : Nat :=
  (timers.map (fun t => t.callback.weight)).sum

/-- Let the virtual clock reach time `t`: every timer due by then fires. -/
def advanceTo (t : Nat) (p : Page) : Page :=
  let q := fireDue (weight p.timers) t p
  { q with now := max q.now t }

/-- The page after the script of the source tree was evaluated and the
document finished loading at time 0. -/
def App.load (tailwind : Global) (elements : List Element) : Outcome :=
  let o := App.evalScript (Page.fresh tailwind elements)
  let o2 := dispatchDOMContentLoaded o.page
  ⟨o2.page, if o.error.isSome then o.error else o2.error⟩

/-- The page after the script of the static-files mirror was evaluated and the
document finished loading at time 0. -/
def Staticfiles.load (tailwind : Global) (elements : List Element) : Outcome :=
  let o := Staticfiles.evalScript (Page.fresh tailwind elements)
  let o2 := dispatchDOMContentLoaded o.page
  ⟨o2.page, if o.error.isSome then o.error else o2.error⟩

/-! ## Observations -/

/-- The elements in the document, with their handles, in document order. -/
def document (elements : List Element) : List (Nat × Element) :=
  (List.range elements.length).filterMap fun i =>
    match elements[i]? with
    | some e => if e.isConnected then some (i, e) else none
    | none => none

/-- The life cycle of an alert element. -/
inductive Phase where
  | visible
  | fadingOut
  | removed
  deriving DecidableEq, Repr

/-- The phase of the element with handle `i`. -/
def phase (p : Page) (i : Nat) : Phase :=
  if isConnected p.elements i then
    if hasClass p.elements i "message-fade-out" then Phase.fadingOut else Phase.visible
  else Phase.removed

/-- The transitions of the life cycle, staying in a phase included. -/
def Phase.next : Phase → Phase → Bool
  | Phase.visible, Phase.visible => true
  | Phase.visible, Phase.fadingOut => true
  | Phase.fadingOut, Phase.fadingOut => true
  | Phase.fadingOut, Phase.removed => true
  | Phase.removed, Phase.removed => true
  | _, _ => false

/-- What can happen on the page after load: the next timer fires, an element
is clicked, or `closeMessage` is called on an element. -/
inductive Event where
  | timer
  | click (target : Nat)
  | close (element : Nat)
  deriving DecidableEq, Repr

/-- The page after an event. -/
def applyEvent (p : Page) : Event → Page
  | Event.timer => fireNext p
  | Event.click target => (click p target).page
  | Event.close element => closeMessage p element

/-- The page after a sequence of events. -/
def run (p : Page) (events : List Event) : Page :=
  events.foldl applyEvent p

/-! ## Notions used in the statements -/

/-- The dismissal timers the load handler schedules at time `now`. -/
def dismissals (now : Nat) (messages : List Nat) : List Timer :=
  messages.map fun m => ⟨now + 5000, Callback.dismiss m⟩

/-- The removal timers scheduled by `closeMessage` at time `now`. -/
def removals (now : Nat) (elements : List Nat) : List Timer :=
  elements.map fun m => ⟨now + 300, Callback.removeElement m⟩

/-- The listener a guarded wiring block attaches: one when the three lookups
succeed, none otherwise. -/
def wiring (toggle menu icon : Option Nat) (handler : Handler) : List Listener :=
  match toggle, menu, icon with
  | some t, some _, some _ => [⟨t, "click", handler⟩]
  | _, _, _ => []

/-- Apply `f` to each of the elements `hs`, one after the other. -/
def updateAll (f : Element → Element) (es : List Element) (hs : List Nat) : List Element :=
  hs.foldl (fun es h => updateElement es h f) es

/-- The alert element `e` is dismissed on time on the page `p` (the page right
after the load handler ran at time 0): the handler scheduled `closeMessage`
for it at 5000, nothing happened to the page before 5000, from 5000 to just
before 5300 it carries the fade-out class with its removal pending at 5300, it
is in the document at every time before 5300 and out of it from 5300 on. -/
def DismissedOnTime (p : Page) (e : Nat) : Prop :=
  (⟨5000, Callback.dismiss e⟩ : Timer) ∈ p.timers ∧
  (∀ t, t < 5000 → advanceTo t p = { p with now := t }) ∧
  (∀ t, 5000 ≤ t → t < 5300 →
    hasClass (advanceTo t p).elements e "message-fade-out" = true ∧
    (⟨5300, Callback.removeElement e⟩ : Timer) ∈ (advanceTo t p).timers) ∧
  (∀ t, t < 5300 → isConnected (advanceTo t p).elements e = true) ∧
  (∀ t, 5300 ≤ t → isConnected (advanceTo t p).elements e = false)

/-- A page with two alert banners, a paragraph and the complete "resources"
toggle group. -/
def samplePage : Page :=
  Page.fresh (Global.object none)
    [⟨none, ["alert-message"], true⟩,
     ⟨some "intro", ["text"], true⟩,
     ⟨some "mobile-resources-toggle", [], true⟩,
     ⟨some "mobile-resources-menu", ["hidden"], true⟩,
     ⟨some "mobile-resources-icon", [], true⟩,
     ⟨none, ["alert-message", "alert-error"], true⟩]

/-- The elements after one run of a toggle click handler on `panel` and `icon`. -/
def toggled (panel icon : Nat) (es : List Element) : List Element :=
  updateElement (updateElement es panel (Element.toggleClass "hidden")) icon
    (Element.toggleClass "rotate-180")

/-- What a click handler does to the elements when the elements it closes
over are not null: it toggles `hidden` on the menu and `rotate-180` on the
icon. -/
def handlerEffect : Handler → List Element → List Element
  | Handler.resourcesClick (some menu) (some icon), es => toggled menu icon es
  | Handler.toolsClick (some menu) (some icon), es => toggled menu icon es
  | _, es => es

/-- The elements after the handlers of the listeners `ls` ran in order. -/
def effects (ls : List Listener) (es : List Element) : List Element :=
  ls.foldl (fun es l => handlerEffect l.handler es) es

/-- The handler raises no error and changes the elements only, by
`handlerEffect`. -/
def TogglesOnly (h : Handler) : Prop :=
  ∀ q : Page, runHandler q h = ⟨{ q with elements := handlerEffect h q.elements }, none⟩

/-- Every element of `q` has the parent it has in `p`, or none. -/
def ParentsShrink (p q : Page) : Prop :=
  ∀ i, parentElement q i = parentElement p i ∨ parentElement q i = none

/-- A page with both toggle groups complete in which the resources trigger is
nested inside the tools trigger. -/
def nestedPage : Page :=
  { Page.fresh (Global.object none)
      [⟨some "mobile-tools-toggle", ["btn"], true⟩,
       ⟨some "mobile-resources-toggle", ["btn"], true⟩,
       ⟨some "mobile-resources-menu", ["hidden"], true⟩,
       ⟨some "mobile-resources-icon", [], true⟩,
       ⟨some "mobile-tools-menu", ["hidden"], true⟩,
       ⟨some "mobile-tools-icon", [], true⟩] with
    parents := [none, some 0] }

/-- The clicks on `trigger` toggle `panel` and `icon` in parity on the page
`s`: no click raises an error; after an even number of clicks every class of
the panel and of the icon is as on `s`; after an odd number the panel's
`hidden` and the icon's `rotate-180` are flipped and every other class of
either is as on `s`. -/
def TogglesInParity (s : Page) (trigger panel icon : Nat) : Prop :=
  ∀ n : Nat,
    (clicks n trigger s).error = none ∧
    (∀ c, hasClass (clicks (2 * n) trigger s).page.elements panel c =
      hasClass s.elements panel c) ∧
    (∀ c, hasClass (clicks (2 * n) trigger s).page.elements icon c =
      hasClass s.elements icon c) ∧
    (hasClass (clicks (2 * n + 1) trigger s).page.elements panel "hidden" =
      !hasClass s.elements panel "hidden") ∧
    (hasClass (clicks (2 * n + 1) trigger s).page.elements icon "rotate-180" =
      !hasClass s.elements icon "rotate-180") ∧
    (∀ c, c ≠ "hidden" → hasClass (clicks (2 * n + 1) trigger s).page.elements panel c =
      hasClass s.elements panel c) ∧
    (∀ c, c ≠ "rotate-180" → hasClass (clicks (2 * n + 1) trigger s).page.elements icon c =
      hasClass s.elements icon c)

/-- A page with both toggle groups complete and one alert banner. -/
def menuPage : Page :=
  Page.fresh (Global.object none)
    [⟨some "mobile-resources-toggle", ["btn"], true⟩,
     ⟨some "mobile-resources-menu", ["hidden", "pl-4"], true⟩,
     ⟨some "mobile-resources-icon", ["w-4"], true⟩,
     ⟨none, ["alert-message"], true⟩,
     ⟨some "mobile-tools-toggle", ["btn"], true⟩,
     ⟨some "mobile-tools-menu", ["pl-4"], true⟩,
     ⟨some "mobile-tools-icon", ["w-4", "rotate-180"], true⟩]

/-- The page of the mixed scenario: two alert banners, the complete resources
group, the tools panel and icon, no tools trigger. -/
def mixedPage : Page :=
  Page.fresh (Global.object none)
    [⟨none, ["alert-message", "alert-success"], true⟩,
     ⟨none, ["alert-message", "alert-error"], true⟩,
     ⟨some "mobile-resources-toggle", [], true⟩,
     ⟨some "mobile-resources-menu", ["hidden"], true⟩,
     ⟨some "mobile-resources-icon", [], true⟩,
     ⟨some "mobile-tools-menu", ["hidden"], true⟩,
     ⟨some "mobile-tools-icon", [], true⟩]

/-- No removal is pending for an element of the document that does not carry
the fade-out class. -/
def NoEarlyRemoval (s : Page) : Prop :=
  ∀ tm ∈ s.timers, ∀ e, tm.callback = Callback.removeElement e →
    isConnected s.elements e = true → hasClass s.elements e "message-fade-out" = true

/-- The page `q` has the timers of `p`, and its elements are connected and
carry the fade-out class as in `p`. -/
def SameAlerts (p q : Page) : Prop :=
  q.timers = p.timers ∧ ∀ j, isConnected q.elements j = isConnected p.elements j ∧
    hasClass q.elements j "message-fade-out" = hasClass p.elements j "message-fade-out"

/-- What a step from `s` to `q` may do to alerts: keep the fade-out class,
connect nothing, remove only elements that carry the fade-out class. -/
def Advance (s q : Page) : Prop :=
  (∀ j, hasClass s.elements j "message-fade-out" = true →
    hasClass q.elements j "message-fade-out" = true) ∧
  (∀ j, isConnected q.elements j = true → isConnected s.elements j = true) ∧
  (∀ j, isConnected s.elements j = true → isConnected q.elements j = false →
    hasClass s.elements j "message-fade-out" = true) ∧
  NoEarlyRemoval q

/-- A page on which neither toggle group fully resolves: the resources icon
and the whole tools group are missing. -/
def plainPage : Page :=
  Page.fresh (Global.object none)
    [⟨none, ["alert-message"], true⟩,
     ⟨some "mobile-resources-toggle", [], true⟩,
     ⟨some "mobile-resources-menu", ["hidden"], true⟩]

/-! ## Elements and class lists -/

theorem length_updateElement (es : List Element) (i : Nat) (f : Element → Element) :
    (updateElement es i f).length = es.length := by
  unfold updateElement
  split <;> simp

theorem getElem?_updateElement (es : List Element) (i j : Nat) (f : Element → Element) :
    (updateElement es i f)[j]? = if j = i then es[j]?.map f else es[j]? := by
  unfold updateElement
  split
  · rename_i e he
    by_cases h : j = i
    · subst h
      simp [he, List.getElem?_set]
      exact (List.getElem?_eq_some_iff.mp he).1
    · have h2 : i ≠ j := fun x => h x.symm
      simp [h, List.getElem?_set, h2]
  · rename_i he
    by_cases h : j = i
    · subst h
      simp [he]
    · simp [h]

theorem mem_addToken (token x : String) (cs : List String) :
    x ∈ addToken token cs ↔ x = token ∨ x ∈ cs := by
  unfold addToken
  split
  · rename_i h
    constructor
    · intro hx
      exact Or.inr hx
    · rintro (rfl | hx)
      · exact h
      · exact hx
  · simp [or_comm]

theorem mem_toggleToken (token x : String) (cs : List String) :
    x ∈ toggleToken token cs ↔ if x = token then token ∉ cs else x ∈ cs := by
  unfold toggleToken
  by_cases hx : x = token
  · subst hx
    by_cases h : x ∈ cs <;> simp [h]
  · by_cases h : token ∈ cs <;> simp [h, hx]

theorem addToken_idem (token : String) (cs : List String) :
    addToken token (addToken token cs) = addToken token cs := by
  have h : token ∈ addToken token cs := (mem_addToken token token cs).mpr (Or.inl rfl)
  exact if_pos h

theorem isConnected_updateElement (es : List Element) (i j : Nat) (f : Element → Element)
    (hf : ∀ e, (f e).isConnected = e.isConnected) :
    isConnected (updateElement es i f) j = isConnected es j := by
  unfold isConnected
  rw [getElem?_updateElement]
  by_cases h : j = i
  · simp only [h, if_true]
    cases es[i]? <;> simp [hf]
  · simp [h]

theorem hasId_updateElement (es : List Element) (i j : Nat) (f : Element → Element)
    (name : String) (hf : ∀ e, (f e).id = e.id) :
    hasId (updateElement es i f) j name = hasId es j name := by
  unfold hasId
  rw [getElem?_updateElement]
  by_cases h : j = i
  · simp only [h, if_true]
    cases es[i]? <;> simp [hf]
  · simp [h]

theorem hasClass_updateElement_same (es : List Element) (i j : Nat) (f : Element → Element)
    (c : String) (hf : ∀ e, c ∈ (f e).classList ↔ c ∈ e.classList) :
    hasClass (updateElement es i f) j c = hasClass es j c := by
  unfold hasClass
  rw [getElem?_updateElement]
  by_cases h : j = i
  · simp only [h, if_true]
    cases es[i]? <;> simp [hf]
  · simp [h]

theorem hasClass_updateElement_ne (es : List Element) (i j : Nat) (f : Element → Element)
    (c : String) (h : j ≠ i) :
    hasClass (updateElement es i f) j c = hasClass es j c := by
  unfold hasClass
  rw [getElem?_updateElement]
  simp [h]

theorem isConnected_updateElement_ne (es : List Element) (i j : Nat) (f : Element → Element)
    (h : j ≠ i) :
    isConnected (updateElement es i f) j = isConnected es j := by
  unfold isConnected
  rw [getElem?_updateElement]
  simp [h]

theorem isConnected_detach (es : List Element) (i j : Nat) :
    isConnected (updateElement es i Element.detach) j = (decide (j ≠ i) && isConnected es j) := by
  unfold isConnected
  rw [getElem?_updateElement]
  by_cases h : j = i
  · simp only [h, if_true]
    cases es[i]? <;> simp [Element.detach]
  · simp [h]

theorem hasClass_addClass_self (es : List Element) (i : Nat) (c : String) (h : i < es.length) :
    hasClass (updateElement es i (Element.addClass c)) i c = true := by
  unfold hasClass
  rw [getElem?_updateElement]
  simp [List.getElem?_eq_getElem h, Element.addClass, mem_addToken]

theorem hasClass_addClass_of (es : List Element) (i j : Nat) (c d : String)
    (h : hasClass es j d = true) :
    hasClass (updateElement es i (Element.addClass c)) j d = true := by
  unfold hasClass at h ⊢
  rw [getElem?_updateElement]
  by_cases hj : j = i
  · subst hj
    cases he : es[j]? with
    | none => simp [he] at h
    | some e =>
      simp [he] at h
      simp [Element.addClass, mem_addToken, h]
  · simpa [hj] using h

theorem hasClass_toggleClass_self (es : List Element) (i : Nat) (c d : String)
    (h : i < es.length) :
    hasClass (updateElement es i (Element.toggleClass c)) i d =
      if d = c then !hasClass es i c else hasClass es i d := by
  unfold hasClass
  rw [getElem?_updateElement]
  simp only [if_true, List.getElem?_eq_getElem h, Option.map_some']
  by_cases hd : d = c
  · simp [hd, Element.toggleClass, mem_toggleToken]
  · simp [hd, Element.toggleClass, mem_toggleToken]

theorem hasClass_eq_false_of_length_le (es : List Element) (i : Nat) (c : String)
    (h : es.length ≤ i) : hasClass es i c = false := by
  unfold hasClass
  simp [List.getElem?_eq_none h]

theorem isConnected_lt (es : List Element) (i : Nat) (h : isConnected es i = true) :
    i < es.length := by
  by_contra hc
  unfold isConnected at h
  simp [List.getElem?_eq_none (Nat.le_of_not_lt hc)] at h

/-! ## Lookups -/

theorem mem_querySelectorAll (p : Page) (token : String) (i : Nat) :
    i ∈ querySelectorAll p token ↔
      isConnected p.elements i = true ∧ hasClass p.elements i token = true := by
  unfold querySelectorAll
  simp only [List.mem_filter, List.mem_range, Bool.and_eq_true]
  constructor
  · rintro ⟨_, h⟩
    exact h
  · intro h
    exact ⟨isConnected_lt _ _ h.1, h⟩

theorem nodup_querySelectorAll (p : Page) (token : String) :
    (querySelectorAll p token).Nodup :=
  List.Nodup.filter _ (List.nodup_range _)

theorem getElementById_some (p : Page) (name : String) (i : Nat)
    (h : getElementById p name = some i) :
    isConnected p.elements i = true ∧ hasId p.elements i name = true := by
  unfold getElementById at h
  have := List.find?_some h
  simpa using this

theorem hasId_unique (es : List Element) (i : Nat) (a b : String)
    (ha : hasId es i a = true) (hb : hasId es i b = true) : a = b := by
  unfold hasId at ha hb
  cases he : es[i]? with
  | none => simp [he] at ha
  | some e =>
    simp [he] at ha hb
    rw [ha] at hb
    exact Option.some.inj hb

theorem getElementById_ne (p : Page) (a b : String) (i j : Nat) (hab : a ≠ b)
    (hi : getElementById p a = some i) (hj : getElementById p b = some j) : i ≠ j := by
  intro h
  subst h
  exact hab (hasId_unique _ _ _ _ (getElementById_some _ _ _ hi).2
    (getElementById_some _ _ _ hj).2)

/-! ## The load handlers in closed form -/

theorem foldl_setTimeout (ms : List Nat) (p : Page) :
    ms.foldl (fun p message => setTimeout p (Callback.dismiss message) 5000) p =
      { p with timers := p.timers ++ dismissals p.now ms } := by
  induction ms generalizing p with
  | nil => simp [dismissals]
  | cons m ms ih =>
    rw [List.foldl_cons, ih]
    simp [setTimeout, dismissals]

theorem appHandler_eq (p : Page) :
    App.onDOMContentLoaded p =
      ⟨{ p with
          timers := p.timers ++ dismissals p.now (querySelectorAll p "alert-message"),
          listeners := p.listeners ++
            (wiring (getElementById p "mobile-resources-toggle")
                (getElementById p "mobile-resources-menu")
                (getElementById p "mobile-resources-icon")
                (Handler.resourcesClick (getElementById p "mobile-resources-menu")
                  (getElementById p "mobile-resources-icon")) ++
              wiring (getElementById p "mobile-tools-toggle")
                (getElementById p "mobile-tools-menu")
                (getElementById p "mobile-tools-icon")
                (Handler.toolsClick (getElementById p "mobile-tools-menu")
                  (getElementById p "mobile-tools-icon"))) }, none⟩ := by
  unfold App.onDOMContentLoaded
  simp only [foldl_setTimeout]
  have hg : ∀ (ts : List Timer) (ls : List Listener) (name : String),
      getElementById { p with timers := ts, listeners := ls } name = getElementById p name :=
    fun _ _ _ => rfl
  have hg2 : ∀ (ts : List Timer) (name : String),
      getElementById { p with timers := ts } name = getElementById p name :=
    fun _ _ => rfl
  simp only [hg2]
  cases h1 : getElementById p "mobile-resources-toggle" <;>
  cases h2 : getElementById p "mobile-resources-menu" <;>
  cases h3 : getElementById p "mobile-resources-icon" <;>
  simp only [truthy, Option.isSome, Bool.and_true, Bool.and_false, Bool.false_and, if_true,
    if_false, addEventListener, Outcome.andThen, hg, hg2, Bool.false_eq_true] <;>
  cases h4 : getElementById p "mobile-tools-toggle" <;>
  cases h5 : getElementById p "mobile-tools-menu" <;>
  cases h6 : getElementById p "mobile-tools-icon" <;>
  simp [wiring]

theorem staticHandler_eq (p : Page) :
    Staticfiles.onDOMContentLoaded p =
      ⟨{ p with
          timers := p.timers ++ dismissals p.now (querySelectorAll p "alert-message") },
        none⟩ := by
  unfold Staticfiles.onDOMContentLoaded
  simp only [foldl_setTimeout]

/-! ## Updating several elements -/

theorem length_updateAll (f : Element → Element) (es : List Element) (hs : List Nat) :
    (updateAll f es hs).length = es.length := by
  induction hs generalizing es with
  | nil => rfl
  | cons h hs ih =>
    show (updateAll f (updateElement es h f) hs).length = es.length
    rw [ih, length_updateElement]

theorem getElem?_updateAll (f : Element → Element) (hf : ∀ e, f (f e) = f e)
    (es : List Element) (hs : List Nat) (j : Nat) :
    (updateAll f es hs)[j]? = if j ∈ hs then es[j]?.map f else es[j]? := by
  induction hs generalizing es with
  | nil => simp [updateAll]
  | cons h hs ih =>
    show (updateAll f (updateElement es h f) hs)[j]? = _
    rw [ih, getElem?_updateElement]
    by_cases hj : j = h
    · subst hj
      by_cases hm : j ∈ hs
      · simp only [hm, if_true, List.mem_cons, or_true, Option.map_map]
        congr 1
        funext e
        exact hf e
      · simp [hm]
    · by_cases hm : j ∈ hs <;> simp [hm, hj]

theorem updateAll_append (f : Element → Element) (es : List Element) (xs ys : List Nat) :
    updateAll f es (xs ++ ys) = updateAll f (updateAll f es xs) ys := by
  simp [updateAll, List.foldl_append]

theorem addClass_idem (c : String) (e : Element) :
    Element.addClass c (Element.addClass c e) = Element.addClass c e := by
  simp [Element.addClass, addToken_idem]

theorem detach_idem (e : Element) : Element.detach (Element.detach e) = Element.detach e := rfl

theorem isConnected_markAll (es : List Element) (hs : List Nat) (c : String) (j : Nat) :
    isConnected (updateAll (Element.addClass c) es hs) j = isConnected es j := by
  unfold isConnected
  rw [getElem?_updateAll _ (addClass_idem c)]
  by_cases h : j ∈ hs
  · simp only [h, if_true]
    cases es[j]? <;> simp [Element.addClass]
  · simp [h]

theorem hasClass_markAll (es : List Element) (hs : List Nat) (c d : String) (j : Nat) :
    hasClass (updateAll (Element.addClass c) es hs) j d =
      (hasClass es j d || (decide (j ∈ hs) && decide (d = c) && decide (j < es.length))) := by
  unfold hasClass
  rw [getElem?_updateAll _ (addClass_idem c)]
  by_cases h : j ∈ hs
  · simp only [h, if_true]
    cases he : es[j]? with
    | none =>
      have : ¬ j < es.length := by
        intro hl
        rw [List.getElem?_eq_getElem hl] at he
        exact Option.noConfusion he
      simp [this]
    | some e =>
      have : j < es.length := (List.getElem?_eq_some_iff.mp he).1
      by_cases hd : d = c
      · simp [Element.addClass, mem_addToken, this, hd]
      · simp [Element.addClass, mem_addToken, this, hd]
  · simp [h]

theorem isConnected_detachAll (es : List Element) (hs : List Nat) (j : Nat) :
    isConnected (updateAll Element.detach es hs) j = (decide (j ∉ hs) && isConnected es j) := by
  unfold isConnected
  rw [getElem?_updateAll _ detach_idem]
  by_cases h : j ∈ hs
  · simp only [h, if_true]
    cases es[j]? <;> simp [Element.detach]
  · simp [h]

theorem hasClass_detachAll (es : List Element) (hs : List Nat) (c : String) (j : Nat) :
    hasClass (updateAll Element.detach es hs) j c = hasClass es j c := by
  unfold hasClass
  rw [getElem?_updateAll _ detach_idem]
  by_cases h : j ∈ hs
  · simp only [h, if_true]
    cases es[j]? <;> simp [Element.detach]
  · simp [h]

/-! ## The timer queue -/

theorem earliest_mem (ts : List Timer) (u : Timer) (h : earliest ts = some u) : u ∈ ts := by
  induction ts generalizing u with
  | nil => simp [earliest] at h
  | cons t ts ih =>
    unfold earliest at h
    cases he : earliest ts with
    | none =>
      simp [he] at h
      simp [h]
    | some v =>
      simp only [he] at h
      by_cases hle : t.due ≤ v.due
      · simp [hle] at h
        simp [h]
      · simp [hle] at h
        subst h
        exact List.mem_cons_of_mem _ (ih v he)

theorem earliest_cons_of_le (t : Timer) (ts : List Timer) (h : ∀ u ∈ ts, t.due ≤ u.due) :
    earliest (t :: ts) = some t := by
  unfold earliest
  cases he : earliest ts with
  | none => rfl
  | some v => simp [h v (earliest_mem ts v he)]

theorem earliest_eq_none (ts : List Timer) (h : earliest ts = none) : ts = [] := by
  cases ts with
  | nil => rfl
  | cons t ts =>
    unfold earliest at h
    cases he : earliest ts with
    | none => simp [he] at h
    | some v =>
      simp only [he] at h
      by_cases hle : t.due ≤ v.due <;> simp [hle] at h

theorem fireDue_stop (fuel t : Nat) (p : Page) (h : ∀ u ∈ p.timers, t < u.due) :
    fireDue fuel t p = p := by
  cases fuel with
  | zero => rfl
  | succ n =>
    unfold fireDue
    cases he : earliest p.timers with
    | none => rfl
    | some tm =>
      have := h tm (earliest_mem _ _ he)
      simp [Nat.not_le.mpr this]

theorem fire_dismiss_head (p : Page) (d a : Nat) (rest : List Timer)
    (h : p.timers = ⟨d, Callback.dismiss a⟩ :: rest) :
    fire p ⟨d, Callback.dismiss a⟩ =
      { p with
        now := max p.now d,
        elements := updateElement p.elements a (Element.addClass "message-fade-out"),
        timers := rest ++ [⟨max p.now d + 300, Callback.removeElement a⟩] } := by
  simp [fire, runCallback, closeMessage, classListAdd, setTimeout, h]

theorem fire_remove_head (p : Page) (d a : Nat) (rest : List Timer)
    (h : p.timers = ⟨d, Callback.removeElement a⟩ :: rest) :
    fire p ⟨d, Callback.removeElement a⟩ =
      { p with
        now := max p.now d,
        elements := updateElement p.elements a Element.detach,
        timers := rest,
        parents := p.parents.set a none } := by
  simp [fire, runCallback, remove, h]

theorem fire_frame (p : Page) (t : Timer) :
    (fire p t).listeners = p.listeners ∧ (fire p t).tailwind = p.tailwind ∧
      (fire p t).documentListeners = p.documentListeners := by
  cases t with
  | mk d cb =>
    cases cb <;>
      simp [fire, runCallback, closeMessage, classListAdd, setTimeout, remove]

theorem fireDue_frame (fuel t : Nat) (p : Page) :
    (fireDue fuel t p).listeners = p.listeners ∧ (fireDue fuel t p).tailwind = p.tailwind ∧
      (fireDue fuel t p).documentListeners = p.documentListeners := by
  induction fuel generalizing p with
  | zero => exact ⟨rfl, rfl, rfl⟩
  | succ n ih =>
    unfold fireDue
    cases he : earliest p.timers with
    | none => exact ⟨rfl, rfl, rfl⟩
    | some tm =>
      by_cases hd : tm.due ≤ t
      · simp only [hd, if_true]
        obtain ⟨h1, h2, h3⟩ := ih (fire p tm)
        obtain ⟨g1, g2, g3⟩ := fire_frame p tm
        exact ⟨h1.trans g1, h2.trans g2, h3.trans g3⟩
      · simp [hd]

theorem fireDue_dismissals (n t : Nat) (hn : n + 5000 ≤ t) (A : List Nat) :
    ∀ (B : List Nat) (p : Page) (fuel : Nat),
      p.timers = dismissals n A ++ removals (n + 5000) B → p.now ≤ n + 5000 →
      A.length ≤ fuel →
      ∃ q, fireDue fuel t p = fireDue (fuel - A.length) t q ∧
        q.timers = removals (n + 5000) (B ++ A) ∧
        q.elements = updateAll (Element.addClass "message-fade-out") p.elements A ∧
        q.now ≤ n + 5000 := by
  induction A with
  | nil =>
    intro B p fuel ht hnow _
    exact ⟨p, by simp, by simpa [dismissals] using ht, rfl, hnow⟩
  | cons a A ih =>
    intro B p fuel ht hnow hfuel
    cases fuel with
    | zero => simp at hfuel
    | succ f =>
      have ht2 : p.timers = ⟨n + 5000, Callback.dismiss a⟩ ::
          (dismissals n A ++ removals (n + 5000) B) := by
        simpa [dismissals] using ht
      have he : earliest p.timers = some ⟨n + 5000, Callback.dismiss a⟩ := by
        rw [ht2]
        apply earliest_cons_of_le
        intro u hu
        simp only [dismissals, removals, List.mem_append, List.mem_map] at hu
        rcases hu with ⟨m, _, rfl⟩ | ⟨m, _, rfl⟩
        · exact Nat.le_refl _
        · exact Nat.le_add_right _ _
      have hmax : max p.now (n + 5000) = n + 5000 := Nat.max_eq_right hnow
      obtain ⟨q, hq, hqt, hqe, hqn⟩ := ih (B ++ [a])
        (fire p ⟨n + 5000, Callback.dismiss a⟩) f
        (by rw [fire_dismiss_head p _ _ _ ht2, hmax]; simp [removals])
        (by rw [fire_dismiss_head p _ _ _ ht2, hmax])
        (by simpa using hfuel)
      refine ⟨q, ?_, ?_, ?_, hqn⟩
      · rw [fireDue, he]
        simp only [hn, if_true]
        rw [hq]
        simp
      · simpa using hqt
      · rw [hqe, fire_dismiss_head p _ _ _ ht2]
        rfl

theorem fireDue_removals (c t : Nat) (hc : c + 300 ≤ t) (B : List Nat) :
    ∀ (p : Page) (fuel : Nat), p.timers = removals c B → p.now ≤ t → B.length ≤ fuel →
      (fireDue fuel t p).timers = [] ∧
        (fireDue fuel t p).elements = updateAll Element.detach p.elements B ∧
        (fireDue fuel t p).now ≤ t := by
  induction B with
  | nil =>
    intro p fuel ht hnow _
    have hs : fireDue fuel t p = p := by
      apply fireDue_stop
      intro u hu
      rw [ht] at hu
      simp [removals] at hu
    rw [hs]
    exact ⟨by simpa [removals] using ht, rfl, hnow⟩
  | cons b B ih =>
    intro p fuel ht hnow hfuel
    cases fuel with
    | zero => simp at hfuel
    | succ f =>
      have ht2 : p.timers = ⟨c + 300, Callback.removeElement b⟩ :: removals c B := by
        simpa [removals] using ht
      have he : earliest p.timers = some ⟨c + 300, Callback.removeElement b⟩ := by
        rw [ht2]
        apply earliest_cons_of_le
        intro u hu
        simp only [removals, List.mem_map] at hu
        rcases hu with ⟨m, _, rfl⟩
        exact Nat.le_refl _
      obtain ⟨h1, h2, h3⟩ := ih (fire p ⟨c + 300, Callback.removeElement b⟩) f
        (by rw [fire_remove_head p _ _ _ ht2])
        (by rw [fire_remove_head p _ _ _ ht2]; exact Nat.max_le.mpr ⟨hnow, hc⟩)
        (by simpa using hfuel)
      rw [fireDue, he]
      simp only [hc, if_true]
      refine ⟨h1, ?_, h3⟩
      rw [h2, fire_remove_head p _ _ _ ht2]
      rfl

theorem weight_dismissals (n : Nat) (ms : List Nat) :
    weight (dismissals n ms) = 2 * ms.length := by
  induction ms with
  | nil => rfl
  | cons m ms ih =>
    have : weight (dismissals n (m :: ms)) = 2 + weight (dismissals n ms) := by
      simp [weight, dismissals, Callback.weight]
    rw [this, ih]
    simp [Nat.mul_add]
    omega

/-! ## The page at time `t` after the load handler ran -/

theorem advanceTo_frame (t : Nat) (p : Page) :
    (advanceTo t p).listeners = p.listeners ∧ (advanceTo t p).tailwind = p.tailwind ∧
      (advanceTo t p).documentListeners = p.documentListeners :=
  fireDue_frame _ t p

theorem advanceTo_now (t : Nat) (p : Page) : t ≤ (advanceTo t p).now :=
  Nat.le_max_right _ _

theorem advanceTo_before (n t : Nat) (ms : List Nat) (p : Page)
    (ht : p.timers = dismissals n ms) (hlt : t < n + 5000) :
    advanceTo t p = { p with now := max p.now t } := by
  unfold advanceTo
  rw [fireDue_stop]
  intro u hu
  rw [ht] at hu
  simp only [dismissals, List.mem_map] at hu
  rcases hu with ⟨m, _, rfl⟩
  exact hlt

theorem advanceTo_fading (n t : Nat) (ms : List Nat) (p : Page)
    (ht : p.timers = dismissals n ms) (hnow : p.now ≤ n + 5000)
    (h1 : n + 5000 ≤ t) (h2 : t < n + 5300) :
    (advanceTo t p).elements = updateAll (Element.addClass "message-fade-out") p.elements ms ∧
      (advanceTo t p).timers = removals (n + 5000) ms ∧ (advanceTo t p).now = t := by
  obtain ⟨q, hq, hqt, hqe, hqn⟩ := fireDue_dismissals n t h1 ms [] p (weight p.timers)
    (by simpa [removals] using ht) hnow (by rw [ht, weight_dismissals]; omega)
  have hs : fireDue (weight p.timers - ms.length) t q = q := by
    apply fireDue_stop
    intro u hu
    rw [hqt] at hu
    simp only [removals, List.mem_map] at hu
    rcases hu with ⟨m, _, rfl⟩
    exact h2
  unfold advanceTo
  rw [hq, hs]
  refine ⟨hqe, by simpa using hqt, ?_⟩
  exact Nat.max_eq_right (Nat.le_trans hqn h1)

theorem advanceTo_after (n t : Nat) (ms : List Nat) (p : Page)
    (ht : p.timers = dismissals n ms) (hnow : p.now ≤ n + 5000) (h1 : n + 5300 ≤ t) :
    (advanceTo t p).elements =
        updateAll Element.detach
          (updateAll (Element.addClass "message-fade-out") p.elements ms) ms ∧
      (advanceTo t p).timers = [] ∧ (advanceTo t p).now = t := by
  have h0 : n + 5000 ≤ t := by omega
  obtain ⟨q, hq, hqt, hqe, hqn⟩ := fireDue_dismissals n t h0 ms [] p (weight p.timers)
    (by simpa [removals] using ht) hnow (by rw [ht, weight_dismissals]; omega)
  obtain ⟨g1, g2, g3⟩ := fireDue_removals (n + 5000) t (by omega) ms q
    (weight p.timers - ms.length) (by simpa using hqt) (Nat.le_trans hqn h0)
    (by rw [ht, weight_dismissals]; omega)
  unfold advanceTo
  rw [hq]
  refine ⟨by rw [g2, hqe], g1, ?_⟩
  exact Nat.max_eq_right g3

theorem dismissedOnTime_of (p : Page) (ms : List Nat) (e : Nat)
    (hnow : p.now = 0) (ht : p.timers = dismissals 0 ms) (he : e ∈ ms)
    (hc : isConnected p.elements e = true) : DismissedOnTime p e := by
  have hnow2 : p.now ≤ 0 + 5000 := by omega
  refine ⟨?_, ?_, ?_, ?_, ?_⟩
  · rw [ht]
    simp only [dismissals, List.mem_map]
    exact ⟨e, he, by simp⟩
  · intro t hlt
    rw [advanceTo_before 0 t ms p ht (by omega), hnow]
    simp
  · intro t h1 h2
    obtain ⟨g1, g2, _⟩ := advanceTo_fading 0 t ms p ht hnow2 (by omega) (by omega)
    constructor
    · rw [g1, hasClass_markAll]
      simp [he, isConnected_lt _ _ hc]
    · rw [g2]
      simp only [removals, List.mem_map]
      exact ⟨e, he, by simp⟩
  · intro t hlt
    by_cases h5 : t < 5000
    · rw [advanceTo_before 0 t ms p ht (by omega)]
      exact hc
    · obtain ⟨g1, _, _⟩ := advanceTo_fading 0 t ms p ht hnow2 (by omega) (by omega)
      rw [g1, isConnected_markAll]
      exact hc
  · intro t hge
    obtain ⟨g1, _, _⟩ := advanceTo_after 0 t ms p ht hnow2 (by omega)
    rw [g1, isConnected_detachAll]
    simp [he]

theorem document_after (es : List Element) (ms : List Nat)
    (hms : ∀ i, i ∈ ms ↔ isConnected es i = true ∧ hasClass es i "alert-message" = true) :
    document (updateAll Element.detach
        (updateAll (Element.addClass "message-fade-out") es ms) ms) =
      (document es).filter (fun x => decide ("alert-message" ∉ x.2.classList)) := by
  unfold document
  rw [List.filter_filterMap, length_updateAll, length_updateAll]
  apply List.filterMap_congr
  intro i _
  rw [getElem?_updateAll _ detach_idem, getElem?_updateAll _ (addClass_idem _)]
  have h := hms i
  unfold isConnected hasClass at h
  by_cases hi : i ∈ ms
  · have h2 := h.mp hi
    cases he : es[i]? with
    | none => simp [he] at h2
    | some e =>
      simp only [he] at h2
      have hm : "alert-message" ∈ e.classList := by simpa using h2.2
      simp [hi, Element.detach, h2.1, Option.filter, hm]
  · cases he : es[i]? with
    | none => simp [hi]
    | some e =>
      simp only [he] at h
      by_cases hc : e.isConnected = true
      · have hn : "alert-message" ∉ e.classList := by
          intro hm
          exact hi (h.mpr ⟨hc, by simpa using hm⟩)
        simp [hi, hc, hn, Option.filter]
      · simp [hi, hc]

/-! ## Claims about the alert banners -/

/-- C1. Auto-dismiss timing. For every page at time 0 with no timer pending
and every element `e` matching `.alert-message` when the load handler runs
(either copy of the script): the handler schedules `closeMessage(e)` at 5000,
nothing happens to the page before 5000, from 5000 on `e` carries the fade-out
class with its removal pending at 5300, `e` is in the document at every time
before 5300 and out of it from 5300 on; and `closeMessage` always schedules
the removal 300 after the time of the call. -/
theorem autoDismiss_timing (p : Page) (e : Nat) (hnow : p.now = 0) (htimers : p.timers = [])
    (he : e ∈ querySelectorAll p "alert-message") :
    DismissedOnTime (App.onDOMContentLoaded p).page e ∧
      DismissedOnTime (Staticfiles.onDOMContentLoaded p).page e ∧
      ∀ q : Page, (⟨q.now + 300, Callback.removeElement e⟩ : Timer) ∈ (closeMessage q e).timers := by
  have hc := ((mem_querySelectorAll p _ e).mp he).1
  refine ⟨?_, ?_, ?_⟩
  · rw [appHandler_eq]
    exact dismissedOnTime_of _ (querySelectorAll p "alert-message") e hnow
      (by simp [htimers, hnow]) he hc
  · rw [staticHandler_eq]
    exact dismissedOnTime_of _ (querySelectorAll p "alert-message") e hnow
      (by simp [htimers, hnow]) he hc
  · intro q
    simp [closeMessage, setTimeout, classListAdd]

/-- Witness of C1 on `samplePage` and its second alert. -/
theorem autoDismiss_timing_witness :
    5 ∈ querySelectorAll samplePage "alert-message" ∧
      DismissedOnTime (App.onDOMContentLoaded samplePage).page 5 ∧
      DismissedOnTime (Staticfiles.onDOMContentLoaded samplePage).page 5 :=
  ⟨by decide,
    (autoDismiss_timing samplePage 5 rfl rfl (by decide)).1,
    (autoDismiss_timing samplePage 5 rfl rfl (by decide)).2.1⟩

/-- C10. Dismissal frame. For every page at time 0 with no timer pending, once
the timers scheduled by the load handler (either copy) have fired, that is at
every time from 5300 on, no timer is pending and the elements in the document
are exactly the elements that were in it at load and did not match
`.alert-message`, in their original order, each with its handle, id and
class list unchanged. -/
theorem dismissal_frame (p : Page) (t : Nat) (hnow : p.now = 0) (htimers : p.timers = [])
    (ht : 5300 ≤ t) :
    (advanceTo t (App.onDOMContentLoaded p).page).timers = [] ∧
      document (advanceTo t (App.onDOMContentLoaded p).page).elements =
        (document p.elements).filter (fun x => decide ("alert-message" ∉ x.2.classList)) ∧
      (advanceTo t (Staticfiles.onDOMContentLoaded p).page).timers = [] ∧
      document (advanceTo t (Staticfiles.onDOMContentLoaded p).page).elements =
        (document p.elements).filter (fun x => decide ("alert-message" ∉ x.2.classList)) := by
  have key : ∀ q : Page, q.now = 0 → q.elements = p.elements →
      q.timers = dismissals 0 (querySelectorAll p "alert-message") →
      (advanceTo t q).timers = [] ∧ document (advanceTo t q).elements =
        (document p.elements).filter (fun x => decide ("alert-message" ∉ x.2.classList)) := by
    intro q hq he hqt
    obtain ⟨g1, g2, _⟩ := advanceTo_after 0 t _ q hqt (by omega) (by omega)
    refine ⟨g2, ?_⟩
    rw [g1, he]
    exact document_after p.elements _ (mem_querySelectorAll p _)
  obtain ⟨a1, a2⟩ := key (App.onDOMContentLoaded p).page
    (by rw [appHandler_eq]; exact hnow) (by rw [appHandler_eq])
    (by rw [appHandler_eq]; simp [htimers, hnow])
  obtain ⟨b1, b2⟩ := key (Staticfiles.onDOMContentLoaded p).page
    (by rw [staticHandler_eq]; exact hnow)
    (by rw [staticHandler_eq])
    (by rw [staticHandler_eq]; simp [htimers, hnow])
  exact ⟨a1, a2, b1, b2⟩

/-- Witness of C10 on `samplePage` at time 6000. -/
theorem dismissal_frame_witness :
    document (advanceTo 6000 (App.onDOMContentLoaded samplePage).page).elements =
      [(1, ⟨some "intro", ["text"], true⟩),
       (2, ⟨some "mobile-resources-toggle", [], true⟩),
       (3, ⟨some "mobile-resources-menu", ["hidden"], true⟩),
       (4, ⟨some "mobile-resources-icon", [], true⟩)] :=
  (dismissal_frame samplePage 6000 rfl rfl (by decide)).2.1.trans (by decide)

/-! ## Clicks -/

theorem length_toggled (panel icon : Nat) (es : List Element) :
    (toggled panel icon es).length = es.length := by
  simp [toggled, length_updateElement]

theorem hasClass_toggled_panel (panel icon : Nat) (es : List Element) (c : String)
    (hne : panel ≠ icon) (h : panel < es.length) :
    hasClass (toggled panel icon es) panel c =
      if c = "hidden" then !hasClass es panel "hidden" else hasClass es panel c := by
  unfold toggled
  rw [hasClass_updateElement_ne _ _ _ _ _ hne, hasClass_toggleClass_self _ _ _ _ h]

theorem hasClass_toggled_icon (panel icon : Nat) (es : List Element) (c : String)
    (hne : panel ≠ icon) (h : icon < es.length) :
    hasClass (toggled panel icon es) icon c =
      if c = "rotate-180" then !hasClass es icon "rotate-180" else hasClass es icon c := by
  unfold toggled
  rw [hasClass_toggleClass_self _ _ _ _ (by rw [length_updateElement]; exact h),
    hasClass_updateElement_ne _ _ _ _ _ (Ne.symm hne),
    hasClass_updateElement_ne _ _ _ _ _ (Ne.symm hne)]

theorem hasClass_toggled_other (panel icon j : Nat) (es : List Element) (c : String)
    (h1 : j ≠ panel) (h2 : j ≠ icon) :
    hasClass (toggled panel icon es) j c = hasClass es j c := by
  unfold toggled
  rw [hasClass_updateElement_ne _ _ _ _ _ h2, hasClass_updateElement_ne _ _ _ _ _ h1]

theorem hasClass_iterate (f : List Element → List Element) (x : Nat) (k : String)
    (hlen : ∀ es, (f es).length = es.length)
    (hf : ∀ es c, x < es.length →
      hasClass (f es) x c = if c = k then !hasClass es x k else hasClass es x c)
    (es : List Element) (hx : x < es.length) (n : Nat) (c : String) :
    hasClass (f^[n] es) x c =
      if c = k then (if n % 2 = 0 then hasClass es x k else !hasClass es x k)
      else hasClass es x c := by
  have hl : ∀ n, (f^[n] es).length = es.length := by
    intro n
    induction n with
    | zero => rfl
    | succ n ih => rw [Function.iterate_succ_apply', hlen, ih]
  induction n generalizing c with
  | zero => by_cases hc : c = k <;> simp [hc]
  | succ n ih =>
    rw [Function.iterate_succ_apply', hf _ _ (by rw [hl]; exact hx)]
    by_cases hc : c = k
    · simp only [hc, if_true]
      rw [ih k]
      simp only [if_true]
      rcases Nat.mod_two_eq_zero_or_one n with h0 | h1
      · have : (n + 1) % 2 = 1 := by omega
        simp [h0, this]
      · have : (n + 1) % 2 = 0 := by omega
        simp [h1, this]
    · simp only [hc, if_false]
      rw [ih c]
      simp [hc]

theorem parentElement_lt (p : Page) (i j : Nat) (h : parentElement p i = some j) : j < i := by
  unfold parentElement at h
  cases hp : p.parents[i]? with
  | none => simp [hp] at h
  | some o =>
    cases o with
    | none => simp [hp] at h
    | some k =>
      simp only [hp] at h
      by_cases hk : k < i
      · simp [hk] at h
        omega
      · simp [hk] at h

theorem ancestors_lt (p : Page) (fuel : Nat) :
    ∀ i a, a ∈ ancestors p fuel i → a < i := by
  induction fuel with
  | zero =>
    intro i a h
    simp [ancestors] at h
  | succ n ih =>
    intro i a h
    unfold ancestors at h
    cases hp : parentElement p i with
    | none => simp [hp] at h
    | some j =>
      simp only [hp, List.mem_cons] at h
      have hj := parentElement_lt p i j hp
      rcases h with h | h
      · omega
      · exact Nat.lt_trans (ih j a h) hj

theorem ancestors_nodup (p : Page) (fuel : Nat) : ∀ i, (ancestors p fuel i).Nodup := by
  induction fuel with
  | zero =>
    intro i
    simp [ancestors]
  | succ n ih =>
    intro i
    unfold ancestors
    cases hp : parentElement p i with
    | none => simp
    | some j =>
      simp only [List.nodup_cons]
      exact ⟨fun h => Nat.lt_irrefl _ (ancestors_lt p n j j h), ih j⟩

theorem eventPath_nodup (p : Page) (x : Nat) : (eventPath p x).Nodup := by
  unfold eventPath
  simp only [List.nodup_cons]
  exact ⟨fun h => Nat.lt_irrefl _ (ancestors_lt p x x x h), ancestors_nodup p x x⟩

theorem self_mem_eventPath (p : Page) (x : Nat) : x ∈ eventPath p x := by
  simp [eventPath]

theorem parentsShrink_refl (p : Page) : ParentsShrink p p := fun _ => Or.inl rfl

theorem parentsShrink_trans {p q r : Page} (h1 : ParentsShrink p q) (h2 : ParentsShrink q r) :
    ParentsShrink p r := by
  intro i
  rcases h2 i with h | h
  · rcases h1 i with g | g
    · exact Or.inl (h.trans g)
    · exact Or.inr (h.trans g)
  · exact Or.inr h

theorem ancestors_subset (p q : Page) (h : ParentsShrink p q) (fuel : Nat) :
    ∀ i a, a ∈ ancestors q fuel i → a ∈ ancestors p fuel i := by
  induction fuel with
  | zero =>
    intro i a ha
    simp [ancestors] at ha
  | succ n ih =>
    intro i a ha
    unfold ancestors at ha ⊢
    cases hq : parentElement q i with
    | none => simp [hq] at ha
    | some j =>
      have hp : parentElement p i = some j := by
        rcases h i with g | g
        · rw [← g, hq]
        · rw [hq] at g
          exact Option.noConfusion g
      simp only [hq, List.mem_cons] at ha
      simp only [hp, List.mem_cons]
      rcases ha with ha | ha
      · exact Or.inl ha
      · exact Or.inr (ih j a ha)

theorem eventPath_subset (p q : Page) (h : ParentsShrink p q) (x a : Nat)
    (ha : a ∈ eventPath q x) : a ∈ eventPath p x := by
  unfold eventPath at ha ⊢
  simp only [List.mem_cons] at ha ⊢
  rcases ha with ha | ha
  · exact Or.inl ha
  · exact Or.inr (ancestors_subset p q h x x a ha)

theorem parentsShrink_remove (p : Page) (x : Nat) : ParentsShrink p (remove p x) := by
  intro i
  show parentElement { p with parents := p.parents.set x none } i = parentElement p i ∨
    parentElement { p with parents := p.parents.set x none } i = none
  unfold parentElement
  simp only [List.getElem?_set]
  by_cases hx : x = i
  · right
    by_cases hl : x < p.parents.length <;> simp [hx, hl]
  · left
    simp [hx]

theorem parentsShrink_fire (p : Page) (tm : Timer) : ParentsShrink p (fire p tm) := by
  cases tm with
  | mk d cb =>
    cases cb with
    | dismiss m => exact fun _ => Or.inl rfl
    | removeElement x => exact fun i => parentsShrink_remove p x i

theorem parentsShrink_fireDue (fuel t : Nat) (p : Page) : ParentsShrink p (fireDue fuel t p) := by
  induction fuel generalizing p with
  | zero => exact parentsShrink_refl p
  | succ n ih =>
    unfold fireDue
    cases he : earliest p.timers with
    | none => exact parentsShrink_refl p
    | some tm =>
      by_cases hd : tm.due ≤ t
      · simp only [hd, if_true]
        exact parentsShrink_trans (parentsShrink_fire p tm) (ih _)
      · simp only [hd, if_false]
        exact parentsShrink_refl p

theorem parentsShrink_advanceTo (t : Nat) (p : Page) : ParentsShrink p (advanceTo t p) :=
  fun i => parentsShrink_fireDue _ t p i

theorem mem_clickListeners (s : Page) (x : Nat) (l : Listener) (h : l ∈ clickListeners s x) :
    l ∈ s.listeners ∧ l.target ∈ eventPath s x := by
  unfold clickListeners at h
  simp only [List.mem_flatMap, List.mem_filter, Bool.and_eq_true, decide_eq_true_eq] at h
  obtain ⟨a, ha, hl, ht, _⟩ := h
  exact ⟨hl, by rw [ht]; exact ha⟩

theorem flatMap_filter_singleton (path : List Nat) (hnd : path.Nodup) (l : Listener)
    (hev : l.event = "click") :
    (path.flatMap fun node => [l].filter (fun k => k.target = node && k.event = "click")) =
      if l.target ∈ path then [l] else [] := by
  induction path with
  | nil => simp
  | cons a rest ih =>
    have hn := List.nodup_cons.mp hnd
    rw [List.flatMap_cons, ih hn.2]
    by_cases ha : l.target = a
    · have hr : l.target ∉ rest := by
        rw [ha]
        exact hn.1
      simp [ha, hev, hr]
      intro h
      exact absurd h (by rw [← ha]; exact hr)
    · by_cases hr : l.target ∈ rest
      · simp [ha, hr]
      · simp [ha, hr]

theorem length_handlerEffect (h : Handler) (es : List Element) :
    (handlerEffect h es).length = es.length := by
  cases h with
  | resourcesClick m i => cases m <;> cases i <;> simp [handlerEffect, length_toggled]
  | toolsClick m i => cases m <;> cases i <;> simp [handlerEffect, length_toggled]

theorem length_effects (ls : List Listener) (es : List Element) :
    (effects ls es).length = es.length := by
  induction ls generalizing es with
  | nil => rfl
  | cons l ls ih =>
    show (effects ls (handlerEffect l.handler es)).length = es.length
    rw [ih, length_handlerEffect]

theorem hasClass_effects (rest : List Listener) (j : Nat)
    (hrest : ∀ l ∈ rest, ∀ es c, hasClass (handlerEffect l.handler es) j c = hasClass es j c) :
    ∀ es c, hasClass (effects rest es) j c = hasClass es j c := by
  induction rest with
  | nil =>
    intro es c
    rfl
  | cons l ls ih =>
    intro es c
    show hasClass (effects ls (handlerEffect l.handler es)) j c = hasClass es j c
    rw [ih (fun k hk => hrest k (List.mem_cons_of_mem _ hk)), hrest l (List.mem_cons_self _ _)]

theorem togglesOnly_resourcesClick (menu icon : Nat) :
    TogglesOnly (Handler.resourcesClick (some menu) (some icon)) := fun _ => rfl

theorem togglesOnly_toolsClick (menu icon : Nat) :
    TogglesOnly (Handler.toolsClick (some menu) (some icon)) := fun _ => rfl

theorem runAll_effect (ls : List Listener) (hg : ∀ l ∈ ls, TogglesOnly l.handler) (p : Page) :
    runAll (fun p l => runHandler p l.handler) ls p =
      ⟨{ p with elements := effects ls p.elements }, none⟩ := by
  have key : ∀ (ls : List Listener), (∀ l ∈ ls, TogglesOnly l.handler) →
      ∀ es : List Element,
      ls.foldl (fun (o : Outcome) (l : Listener) =>
        (⟨(runHandler o.page l.handler).page,
          if o.error.isSome then o.error else (runHandler o.page l.handler).error⟩ : Outcome))
        ⟨{ p with elements := es }, none⟩ =
      ⟨{ p with elements := effects ls es }, none⟩ := by
    intro ls
    induction ls with
    | nil =>
      intro _ es
      rfl
    | cons l ls ih =>
      intro hg es
      rw [List.foldl_cons, hg l (List.mem_cons_self _ _)]
      exact ih (fun k hk => hg k (List.mem_cons_of_mem _ hk)) _
  exact key ls hg p.elements

theorem click_eq (p : Page) (x : Nat) (hg : ∀ l ∈ p.listeners, TogglesOnly l.handler) :
    click p x = ⟨{ p with elements := effects (clickListeners p x) p.elements }, none⟩ :=
  runAll_effect _ (fun l hl => hg l (mem_clickListeners p x l hl).1) p

theorem ancestors_congr (p q : Page) (h : q.parents = p.parents) (fuel : Nat) :
    ∀ i, ancestors q fuel i = ancestors p fuel i := by
  induction fuel with
  | zero =>
    intro i
    rfl
  | succ n ih =>
    intro i
    have hp : parentElement q i = parentElement p i := by
      unfold parentElement
      rw [h]
    unfold ancestors
    rw [hp]
    cases parentElement p i with
    | none => rfl
    | some j => simp [ih j]

theorem clickListeners_congr (p q : Page) (hl : q.listeners = p.listeners)
    (h : q.parents = p.parents) (x : Nat) : clickListeners q x = clickListeners p x := by
  unfold clickListeners eventPath
  rw [ancestors_congr p q h, hl]

theorem click_elements (s : Page) (es : List Element) (x : Nat)
    (hg : ∀ l ∈ s.listeners, TogglesOnly l.handler) :
    click { s with elements := es } x =
      ⟨{ s with elements := effects (clickListeners s x) es }, none⟩ := by
  have hc : clickListeners { s with elements := es } x = clickListeners s x := by
    apply clickListeners_congr <;> rfl
  rw [click_eq _ x (by exact hg), hc]

theorem clicks_eq (s : Page) (x : Nat) (hg : ∀ l ∈ s.listeners, TogglesOnly l.handler)
    (n : Nat) :
    clicks n x s =
      ⟨{ s with elements := (effects (clickListeners s x))^[n] s.elements }, none⟩ := by
  induction n with
  | zero => rfl
  | succ n ih =>
    rw [clicks, ih]
    simp only [Outcome.andThen]
    rw [click_elements s _ x hg, Function.iterate_succ_apply']

theorem togglesInParity_of (s : Page) (tr panel icon : Nat) (h : Handler)
    (rest : List Listener)
    (hg : ∀ l ∈ s.listeners, TogglesOnly l.handler)
    (hcl : clickListeners s tr = ⟨tr, "click", h⟩ :: rest)
    (heff : ∀ es, handlerEffect h es = toggled panel icon es)
    (hrest : ∀ l ∈ rest, ∀ j, j = panel ∨ j = icon →
      ∀ es c, hasClass (handlerEffect l.handler es) j c = hasClass es j c)
    (hne : panel ≠ icon) (hp : panel < s.elements.length) (hi : icon < s.elements.length) :
    TogglesInParity s tr panel icon := by
  have hF : ∀ es, effects (clickListeners s tr) es = effects rest (toggled panel icon es) := by
    intro es
    rw [hcl]
    show effects rest (handlerEffect h es) = _
    rw [heff]
  have hP := hasClass_iterate (effects (clickListeners s tr)) panel "hidden"
    (length_effects _)
    (fun es c hx => by
      rw [hF, hasClass_effects rest panel (fun l hl => hrest l hl panel (Or.inl rfl)),
        hasClass_toggled_panel panel icon es c hne hx]) s.elements hp
  have hI := hasClass_iterate (effects (clickListeners s tr)) icon "rotate-180"
    (length_effects _)
    (fun es c hx => by
      rw [hF, hasClass_effects rest icon (fun l hl => hrest l hl icon (Or.inr rfl)),
        hasClass_toggled_icon panel icon es c hne hx]) s.elements hi
  intro n
  have e0 : (2 * n) % 2 = 0 := by omega
  have e1 : (2 * n + 1) % 2 ≠ 0 := by omega
  simp only [clicks_eq s tr hg]
  refine ⟨trivial, ?_, ?_, ?_, ?_, ?_, ?_⟩
  · intro c
    rw [hP]
    by_cases hc : c = "hidden" <;> simp [hc, e0]
  · intro c
    rw [hI]
    by_cases hc : c = "rotate-180" <;> simp [hc, e0]
  · rw [hP]
    simp [e1]
  · rw [hI]
    simp [e1]
  · intro c hc
    rw [hP]
    simp [hc]
  · intro c hc
    rw [hI]
    simp [hc]

theorem updateElement_comm (es : List Element) (i j : Nat) (f g : Element → Element)
    (h : i ≠ j) :
    updateElement (updateElement es i f) j g = updateElement (updateElement es j g) i f := by
  apply List.ext_getElem?
  intro k
  simp only [getElem?_updateElement]
  by_cases hi : k = i
  · have hj : k ≠ j := fun x => h (hi.symm.trans x)
    simp [hi, hj, h]
  · by_cases hj : k = j
    · subst hj
      simp [hi]
    · simp [hi, hj]

theorem toggled_comm (a b c d : Nat) (es : List Element)
    (hac : a ≠ c) (had : a ≠ d) (hbc : b ≠ c) (hbd : b ≠ d) :
    toggled a b (toggled c d es) = toggled c d (toggled a b es) := by
  unfold toggled
  rw [updateElement_comm _ d a _ _ (Ne.symm had), updateElement_comm _ c a _ _ (Ne.symm hac),
    updateElement_comm _ d b _ _ (Ne.symm hbd), updateElement_comm _ c b _ _ (Ne.symm hbc)]

theorem filter_wiring_self (tr : Nat) (menu icon : Nat) (h : Handler) :
    (wiring (some tr) (some menu) (some icon) h).filter
      (fun l => l.target = tr && l.event = "click") = [⟨tr, "click", h⟩] := by
  simp [wiring]

theorem filter_wiring_ne (tr : Nat) (toggle menu icon : Option Nat) (h : Handler)
    (hne : toggle ≠ some tr) :
    (wiring toggle menu icon h).filter (fun l => l.target = tr && l.event = "click") = [] := by
  cases toggle with
  | none => simp [wiring]
  | some t =>
    have : t ≠ tr := fun x => hne (by rw [x])
    cases menu <;> cases icon <;> simp [wiring, this]

theorem length_fire (p : Page) (t : Timer) : (fire p t).elements.length = p.elements.length := by
  cases t with
  | mk d cb =>
    cases cb <;>
      simp [fire, runCallback, closeMessage, classListAdd, setTimeout, remove,
        length_updateElement]

theorem length_fireDue (fuel t : Nat) (p : Page) :
    (fireDue fuel t p).elements.length = p.elements.length := by
  induction fuel generalizing p with
  | zero => rfl
  | succ n ih =>
    unfold fireDue
    cases he : earliest p.timers with
    | none => rfl
    | some tm =>
      by_cases hd : tm.due ≤ t
      · simp only [hd, if_true]
        rw [ih, length_fire]
      · simp [hd]

theorem length_advanceTo (t : Nat) (p : Page) :
    (advanceTo t p).elements.length = p.elements.length :=
  length_fireDue _ t p

theorem runHandler_resourcesClick (p : Page) (menu icon : Nat) :
    runHandler p (Handler.resourcesClick (some menu) (some icon)) =
      ⟨{ p with elements := toggled menu icon p.elements }, none⟩ := rfl

theorem runHandler_toolsClick (p : Page) (menu icon : Nat) :
    runHandler p (Handler.toolsClick (some menu) (some icon)) =
      ⟨{ p with elements := toggled menu icon p.elements }, none⟩ := rfl

theorem getElementById_lt (p : Page) (name : String) (i : Nat)
    (h : getElementById p name = some i) : i < p.elements.length :=
  isConnected_lt _ _ (getElementById_some p name i h).1

/-- The listeners on the resources trigger at any time after load. -/
theorem resources_listeners (p : Page) (t : Nat) (hl : p.listeners = []) (tr pn ic : Nat)
    (h1 : getElementById p "mobile-resources-toggle" = some tr)
    (h2 : getElementById p "mobile-resources-menu" = some pn)
    (h3 : getElementById p "mobile-resources-icon" = some ic) :
    (advanceTo t (App.onDOMContentLoaded p).page).listeners.filter
        (fun l => l.target = tr && l.event = "click") =
      [⟨tr, "click", Handler.resourcesClick (some pn) (some ic)⟩] := by
  rw [(advanceTo_frame t _).1, appHandler_eq]
  simp only [hl, h1, h2, h3, List.nil_append, List.filter_append, filter_wiring_self]
  rw [filter_wiring_ne]
  · rfl
  · intro h
    exact getElementById_ne p "mobile-tools-toggle" "mobile-resources-toggle" tr tr
      (by decide) h h1 rfl

/-- The listeners on the tools trigger at any time after load. -/
theorem tools_listeners (p : Page) (t : Nat) (hl : p.listeners = []) (tr pn ic : Nat)
    (h1 : getElementById p "mobile-tools-toggle" = some tr)
    (h2 : getElementById p "mobile-tools-menu" = some pn)
    (h3 : getElementById p "mobile-tools-icon" = some ic) :
    (advanceTo t (App.onDOMContentLoaded p).page).listeners.filter
        (fun l => l.target = tr && l.event = "click") =
      [⟨tr, "click", Handler.toolsClick (some pn) (some ic)⟩] := by
  rw [(advanceTo_frame t _).1, appHandler_eq]
  simp only [hl, h1, h2, h3, List.nil_append, List.filter_append, filter_wiring_self]
  rw [filter_wiring_ne]
  · rfl
  · intro h
    exact getElementById_ne p "mobile-resources-toggle" "mobile-tools-toggle" tr tr
      (by decide) h h1 rfl

theorem length_loaded (p : Page) (t : Nat) :
    (advanceTo t (App.onDOMContentLoaded p).page).elements.length = p.elements.length := by
  rw [length_advanceTo, appHandler_eq]

theorem mem_wiring (l : Listener) (a b c : Option Nat) (h : Handler)
    (hl : l ∈ wiring a b c h) :
    ∃ t m i, a = some t ∧ b = some m ∧ c = some i ∧ l = ⟨t, "click", h⟩ := by
  cases a <;> cases b <;> cases c <;> simp [wiring] at hl
  rename_i t m i
  exact ⟨t, m, i, rfl, rfl, rfl, hl⟩

theorem loaded_listeners (p : Page) (t : Nat) (hl : p.listeners = []) :
    (advanceTo t (App.onDOMContentLoaded p).page).listeners =
      wiring (getElementById p "mobile-resources-toggle")
          (getElementById p "mobile-resources-menu")
          (getElementById p "mobile-resources-icon")
          (Handler.resourcesClick (getElementById p "mobile-resources-menu")
            (getElementById p "mobile-resources-icon")) ++
        wiring (getElementById p "mobile-tools-toggle")
          (getElementById p "mobile-tools-menu")
          (getElementById p "mobile-tools-icon")
          (Handler.toolsClick (getElementById p "mobile-tools-menu")
            (getElementById p "mobile-tools-icon")) := by
  rw [(advanceTo_frame t _).1, appHandler_eq]
  simp [hl]

theorem loaded_togglesOnly (p : Page) (t : Nat) (hl : p.listeners = []) :
    ∀ l ∈ (advanceTo t (App.onDOMContentLoaded p).page).listeners, TogglesOnly l.handler := by
  intro l hmem
  rw [loaded_listeners p t hl, List.mem_append] at hmem
  rcases hmem with h | h
  · obtain ⟨_, m, i, _, hm, hi, rfl⟩ := mem_wiring _ _ _ _ _ h
    show TogglesOnly (Handler.resourcesClick _ _)
    rw [hm, hi]
    exact togglesOnly_resourcesClick m i
  · obtain ⟨_, m, i, _, hm, hi, rfl⟩ := mem_wiring _ _ _ _ _ h
    show TogglesOnly (Handler.toolsClick _ _)
    rw [hm, hi]
    exact togglesOnly_toolsClick m i

theorem loaded_path (p : Page) (t x a : Nat)
    (h : a ∈ eventPath (advanceTo t (App.onDOMContentLoaded p).page) x) : a ∈ eventPath p x := by
  have h0 : ParentsShrink p (App.onDOMContentLoaded p).page := by
    intro i
    left
    rw [appHandler_eq]
    rfl
  exact eventPath_subset p _ (parentsShrink_trans h0 (parentsShrink_advanceTo t _)) x a h

/-- The listeners a click on the resources trigger runs at any time after
load: the resources handler, then at most handlers of the tools group, when
the tools trigger is an ancestor of the resources trigger. -/
theorem resources_clickListeners (p : Page) (t : Nat) (hl : p.listeners = [])
    (tr pn ic : Nat)
    (h1 : getElementById p "mobile-resources-toggle" = some tr)
    (h2 : getElementById p "mobile-resources-menu" = some pn)
    (h3 : getElementById p "mobile-resources-icon" = some ic) :
    ∃ rest, clickListeners (advanceTo t (App.onDOMContentLoaded p).page) tr =
        ⟨tr, "click", Handler.resourcesClick (some pn) (some ic)⟩ :: rest ∧
      ∀ l ∈ rest, ∃ tt tm ti,
        getElementById p "mobile-tools-toggle" = some tt ∧
        getElementById p "mobile-tools-menu" = some tm ∧
        getElementById p "mobile-tools-icon" = some ti ∧
        l = ⟨tt, "click", Handler.toolsClick (some tm) (some ti)⟩ ∧ tt ∈ eventPath p tr := by
  refine ⟨(ancestors (advanceTo t (App.onDOMContentLoaded p).page) tr tr).flatMap fun node =>
    (advanceTo t (App.onDOMContentLoaded p).page).listeners.filter
      (fun l => l.target = node && l.event = "click"), ?_, ?_⟩
  · unfold clickListeners eventPath
    rw [List.flatMap_cons, resources_listeners p t hl tr pn ic h1 h2 h3]
    rfl
  · intro l hmem
    simp only [List.mem_flatMap, List.mem_filter, Bool.and_eq_true, decide_eq_true_eq] at hmem
    obtain ⟨a, ha, hin, hta, _⟩ := hmem
    have hlt : a < tr := ancestors_lt _ _ _ _ ha
    rw [loaded_listeners p t hl, List.mem_append] at hin
    rcases hin with h | h
    · obtain ⟨t0, _, _, ht0, _, _, rfl⟩ := mem_wiring _ _ _ _ _ h
      rw [h1] at ht0
      have : tr = t0 := Option.some.inj ht0
      have : t0 = a := hta
      omega
    · obtain ⟨t0, m, i, ht0, hm, hi, rfl⟩ := mem_wiring _ _ _ _ _ h
      refine ⟨t0, m, i, ht0, hm, hi, by rw [hm, hi], ?_⟩
      apply loaded_path p t
      have : t0 = a := hta
      rw [this]
      exact List.mem_cons_of_mem _ ha

/-- The listeners a click on the tools trigger runs at any time after load:
the tools handler, then at most handlers of the resources group, when the
resources trigger is an ancestor of the tools trigger. -/
theorem tools_clickListeners (p : Page) (t : Nat) (hl : p.listeners = [])
    (tr pn ic : Nat)
    (h1 : getElementById p "mobile-tools-toggle" = some tr)
    (h2 : getElementById p "mobile-tools-menu" = some pn)
    (h3 : getElementById p "mobile-tools-icon" = some ic) :
    ∃ rest, clickListeners (advanceTo t (App.onDOMContentLoaded p).page) tr =
        ⟨tr, "click", Handler.toolsClick (some pn) (some ic)⟩ :: rest ∧
      ∀ l ∈ rest, ∃ rt rm ri,
        getElementById p "mobile-resources-toggle" = some rt ∧
        getElementById p "mobile-resources-menu" = some rm ∧
        getElementById p "mobile-resources-icon" = some ri ∧
        l = ⟨rt, "click", Handler.resourcesClick (some rm) (some ri)⟩ ∧
        rt ∈ eventPath p tr := by
  refine ⟨(ancestors (advanceTo t (App.onDOMContentLoaded p).page) tr tr).flatMap fun node =>
    (advanceTo t (App.onDOMContentLoaded p).page).listeners.filter
      (fun l => l.target = node && l.event = "click"), ?_, ?_⟩
  · unfold clickListeners eventPath
    rw [List.flatMap_cons, tools_listeners p t hl tr pn ic h1 h2 h3]
    rfl
  · intro l hmem
    simp only [List.mem_flatMap, List.mem_filter, Bool.and_eq_true, decide_eq_true_eq] at hmem
    obtain ⟨a, ha, hin, hta, _⟩ := hmem
    have hlt : a < tr := ancestors_lt _ _ _ _ ha
    rw [loaded_listeners p t hl, List.mem_append] at hin
    rcases hin with h | h
    · obtain ⟨t0, m, i, ht0, hm, hi, rfl⟩ := mem_wiring _ _ _ _ _ h
      refine ⟨t0, m, i, ht0, hm, hi, by rw [hm, hi], ?_⟩
      apply loaded_path p t
      have : t0 = a := hta
      rw [this]
      exact List.mem_cons_of_mem _ ha
    · obtain ⟨t0, _, _, ht0, _, _, rfl⟩ := mem_wiring _ _ _ _ _ h
      rw [h1] at ht0
      have : tr = t0 := Option.some.inj ht0
      have : t0 = a := hta
      omega

/-- A click that runs the toggle handler of one group only. -/
theorem click_lone (s : Page) (x panel icon : Nat) (h : Handler)
    (hg : ∀ l ∈ s.listeners, TogglesOnly l.handler)
    (hcl : clickListeners s x = [⟨x, "click", h⟩])
    (heff : ∀ es, handlerEffect h es = toggled panel icon es) (es : List Element) :
    click { s with elements := es } x = ⟨{ s with elements := toggled panel icon es }, none⟩ := by
  rw [click_elements s es x hg, hcl]
  show (⟨{ s with elements := handlerEffect h es }, none⟩ : Outcome) = _
  rw [heff]

/-! ## Claims about the submenu toggles -/

/-- C3. Toggle parity. For every page without listeners before the load
handler runs, at any time `t` after the handler of the source-tree script ran,
and for each toggle group (resources, tools) whose trigger, panel and icon all
resolve: no click on the trigger raises an error, after `2n` clicks every class
of the panel and of the icon is as before the clicks, and after `2n+1` clicks
the panel's `hidden` and the icon's `rotate-180` are flipped and no other class
of either element changed. -/
theorem toggle_parity (p : Page) (t : Nat) (hl : p.listeners = []) :
    (∀ tr pn ic : Nat,
      getElementById p "mobile-resources-toggle" = some tr →
      getElementById p "mobile-resources-menu" = some pn →
      getElementById p "mobile-resources-icon" = some ic →
      TogglesInParity (advanceTo t (App.onDOMContentLoaded p).page) tr pn ic) ∧
    (∀ tr pn ic : Nat,
      getElementById p "mobile-tools-toggle" = some tr →
      getElementById p "mobile-tools-menu" = some pn →
      getElementById p "mobile-tools-icon" = some ic →
      TogglesInParity (advanceTo t (App.onDOMContentLoaded p).page) tr pn ic) := by
  constructor
  · intro tr pn ic h1 h2 h3
    obtain ⟨rest, hcl, hrest⟩ := resources_clickListeners p t hl tr pn ic h1 h2 h3
    refine togglesInParity_of _ tr pn ic _ rest (loaded_togglesOnly p t hl) hcl (fun _ => rfl)
      ?_ (getElementById_ne p _ _ pn ic (by decide) h2 h3)
      (by rw [length_loaded]; exact getElementById_lt p _ _ h2)
      (by rw [length_loaded]; exact getElementById_lt p _ _ h3)
    intro l hmem j hj es c
    obtain ⟨_, tm, ti, _, g2, g3, rfl, _⟩ := hrest l hmem
    show hasClass (toggled tm ti es) j c = hasClass es j c
    rcases hj with rfl | rfl
    · exact hasClass_toggled_other tm ti _ es c
        (getElementById_ne p _ _ _ tm (by decide) h2 g2)
        (getElementById_ne p _ _ _ ti (by decide) h2 g3)
    · exact hasClass_toggled_other tm ti _ es c
        (getElementById_ne p _ _ _ tm (by decide) h3 g2)
        (getElementById_ne p _ _ _ ti (by decide) h3 g3)
  · intro tr pn ic h1 h2 h3
    obtain ⟨rest, hcl, hrest⟩ := tools_clickListeners p t hl tr pn ic h1 h2 h3
    refine togglesInParity_of _ tr pn ic _ rest (loaded_togglesOnly p t hl) hcl (fun _ => rfl)
      ?_ (getElementById_ne p _ _ pn ic (by decide) h2 h3)
      (by rw [length_loaded]; exact getElementById_lt p _ _ h2)
      (by rw [length_loaded]; exact getElementById_lt p _ _ h3)
    intro l hmem j hj es c
    obtain ⟨_, rm, ri, _, g2, g3, rfl, _⟩ := hrest l hmem
    show hasClass (toggled rm ri es) j c = hasClass es j c
    rcases hj with rfl | rfl
    · exact hasClass_toggled_other rm ri _ es c
        (getElementById_ne p _ _ _ rm (by decide) h2 g2)
        (getElementById_ne p _ _ _ ri (by decide) h2 g3)
    · exact hasClass_toggled_other rm ri _ es c
        (getElementById_ne p _ _ _ rm (by decide) h3 g2)
        (getElementById_ne p _ _ _ ri (by decide) h3 g3)

/-- Witness of C3 on `menuPage`: both groups resolve and toggle in parity. -/
theorem toggle_parity_witness :
    TogglesInParity (advanceTo 0 (App.onDOMContentLoaded menuPage).page) 0 1 2 ∧
      TogglesInParity (advanceTo 7000 (App.onDOMContentLoaded menuPage).page) 4 5 6 :=
  ⟨(toggle_parity menuPage 0 rfl).1 0 1 2 (by decide) (by decide) (by decide),
    (toggle_parity menuPage 7000 rfl).2 4 5 6 (by decide) (by decide) (by decide)⟩

/-- C4. Guarded wiring. For every page, the load handler of the source-tree
script raises no error, and for each toggle group it attaches a click listener
(to the group's trigger, running the group's handler on the panel and the
icon) exactly when the three lookups of the group succeed; when one of them
fails it attaches nothing for the group, also when the trigger is present. -/
theorem guarded_wiring (p : Page) :
    (App.onDOMContentLoaded p).error = none ∧
      (App.onDOMContentLoaded p).page.listeners =
        p.listeners ++
          (match getElementById p "mobile-resources-toggle",
              getElementById p "mobile-resources-menu",
              getElementById p "mobile-resources-icon" with
            | some toggle, some menu, some icon =>
              [⟨toggle, "click", Handler.resourcesClick (some menu) (some icon)⟩]
            | _, _, _ => []) ++
          (match getElementById p "mobile-tools-toggle",
              getElementById p "mobile-tools-menu",
              getElementById p "mobile-tools-icon" with
            | some toggle, some menu, some icon =>
              [⟨toggle, "click", Handler.toolsClick (some menu) (some icon)⟩]
            | _, _, _ => []) := by
  rw [appHandler_eq]
  refine ⟨rfl, ?_⟩
  cases getElementById p "mobile-resources-toggle" <;>
  cases getElementById p "mobile-resources-menu" <;>
  cases getElementById p "mobile-resources-icon" <;>
  cases getElementById p "mobile-tools-toggle" <;>
  cases getElementById p "mobile-tools-menu" <;>
  cases getElementById p "mobile-tools-icon" <;>
  simp [wiring]

theorem independence_core (s : Page) (rt rm ri tt tm ti : Nat)
    (hg : ∀ l ∈ s.listeners, TogglesOnly l.handler)
    (hR : clickListeners s rt =
      [⟨rt, "click", Handler.resourcesClick (some rm) (some ri)⟩])
    (hT : clickListeners s tt =
      [⟨tt, "click", Handler.toolsClick (some tm) (some ti)⟩])
    (n25 : rm ≠ tm) (n26 : rm ≠ ti) (n35 : ri ≠ tm) (n36 : ri ≠ ti) :
    click (click s rt).page tt = click (click s tt).page rt := by
  have cR := click_lone s rt rm ri _ hg hR (fun _ => rfl)
  have cT := click_lone s tt tm ti _ hg hT (fun _ => rfl)
  have cR0 : click s rt = ⟨{ s with elements := toggled rm ri s.elements }, none⟩ :=
    cR s.elements
  have cT0 : click s tt = ⟨{ s with elements := toggled tm ti s.elements }, none⟩ :=
    cT s.elements
  rw [cR0, cT0]
  show click { s with elements := toggled rm ri s.elements } tt =
    click { s with elements := toggled tm ti s.elements } rt
  rw [cT, cR, toggled_comm tm ti rm ri _ (Ne.symm n25) (Ne.symm n35) (Ne.symm n26)
    (Ne.symm n36)]

theorem frame_core (s : Page) (x panel icon j : Nat) (h : Handler)
    (hg : ∀ l ∈ s.listeners, TogglesOnly l.handler)
    (hcl : clickListeners s x = [⟨x, "click", h⟩])
    (heff : ∀ es, handlerEffect h es = toggled panel icon es)
    (h1 : j ≠ panel) (h2 : j ≠ icon) (c : String) :
    hasClass (click s x).page.elements j c = hasClass s.elements j c := by
  have c0 : click s x = ⟨{ s with elements := toggled panel icon s.elements }, none⟩ :=
    click_lone s x panel icon h hg hcl heff s.elements
  rw [c0]
  exact hasClass_toggled_other panel icon j _ c h1 h2

/-- The counterexample to C7: on `nestedPage` the six lookups succeed and the
six elements are distinct, yet a click on the resources trigger, which sits
inside the tools trigger, bubbles to the tools trigger and flips `hidden` on
the tools panel and `rotate-180` on the tools icon. -/
theorem nested_triggers_counterexample :
    getElementById nestedPage "mobile-resources-toggle" = some 1 ∧
      getElementById nestedPage "mobile-resources-menu" = some 2 ∧
      getElementById nestedPage "mobile-resources-icon" = some 3 ∧
      getElementById nestedPage "mobile-tools-toggle" = some 0 ∧
      getElementById nestedPage "mobile-tools-menu" = some 4 ∧
      getElementById nestedPage "mobile-tools-icon" = some 5 ∧
      eventPath (App.onDOMContentLoaded nestedPage).page 1 = [1, 0] ∧
      (click (App.onDOMContentLoaded nestedPage).page 1).error = none ∧
      hasClass (App.onDOMContentLoaded nestedPage).page.elements 4 "hidden" = true ∧
      hasClass (click (App.onDOMContentLoaded nestedPage).page 1).page.elements 4
        "hidden" = false ∧
      hasClass (App.onDOMContentLoaded nestedPage).page.elements 5 "rotate-180" = false ∧
      hasClass (click (App.onDOMContentLoaded nestedPage).page 1).page.elements 5
        "rotate-180" = true := by
  decide

/-- C7, amended. Toggle independence. For every page without listeners before
the load handler runs in which the six lookups of the two toggle groups
succeed, at any time `t` after the handler of the source-tree script ran: the
six elements are pairwise distinct and no click on a trigger raises an error;
when the tools trigger is not an ancestor of the resources trigger, a click on
the resources trigger leaves every class of the tools panel and icon
unchanged; when the resources trigger is not an ancestor of the tools trigger,
a click on the tools trigger leaves every class of the resources panel and
icon unchanged; and when neither trigger is an ancestor of the other, a
resources click followed by a tools click yields the same page as the two
clicks in the opposite order. -/
theorem toggle_independence (p : Page) (t : Nat) (hl : p.listeners = [])
    (rt rm ri tt tm ti : Nat)
    (h1 : getElementById p "mobile-resources-toggle" = some rt)
    (h2 : getElementById p "mobile-resources-menu" = some rm)
    (h3 : getElementById p "mobile-resources-icon" = some ri)
    (h4 : getElementById p "mobile-tools-toggle" = some tt)
    (h5 : getElementById p "mobile-tools-menu" = some tm)
    (h6 : getElementById p "mobile-tools-icon" = some ti) :
    [rt, rm, ri, tt, tm, ti].Nodup ∧
      (click (advanceTo t (App.onDOMContentLoaded p).page) rt).error = none ∧
      (click (advanceTo t (App.onDOMContentLoaded p).page) tt).error = none ∧
      (tt ∉ eventPath p rt →
        (∀ c, hasClass (click (advanceTo t (App.onDOMContentLoaded p).page) rt).page.elements
            tm c =
          hasClass (advanceTo t (App.onDOMContentLoaded p).page).elements tm c) ∧
        (∀ c, hasClass (click (advanceTo t (App.onDOMContentLoaded p).page) rt).page.elements
            ti c =
          hasClass (advanceTo t (App.onDOMContentLoaded p).page).elements ti c)) ∧
      (rt ∉ eventPath p tt →
        (∀ c, hasClass (click (advanceTo t (App.onDOMContentLoaded p).page) tt).page.elements
            rm c =
          hasClass (advanceTo t (App.onDOMContentLoaded p).page).elements rm c) ∧
        (∀ c, hasClass (click (advanceTo t (App.onDOMContentLoaded p).page) tt).page.elements
            ri c =
          hasClass (advanceTo t (App.onDOMContentLoaded p).page).elements ri c)) ∧
      (tt ∉ eventPath p rt → rt ∉ eventPath p tt →
        click (click (advanceTo t (App.onDOMContentLoaded p).page) rt).page tt =
          click (click (advanceTo t (App.onDOMContentLoaded p).page) tt).page rt) := by
  have hg := loaded_togglesOnly p t hl
  have n12 := getElementById_ne p _ _ rt rm (by decide) h1 h2
  have n13 := getElementById_ne p _ _ rt ri (by decide) h1 h3
  have n14 := getElementById_ne p _ _ rt tt (by decide) h1 h4
  have n15 := getElementById_ne p _ _ rt tm (by decide) h1 h5
  have n16 := getElementById_ne p _ _ rt ti (by decide) h1 h6
  have n23 := getElementById_ne p _ _ rm ri (by decide) h2 h3
  have n24 := getElementById_ne p _ _ rm tt (by decide) h2 h4
  have n25 := getElementById_ne p _ _ rm tm (by decide) h2 h5
  have n26 := getElementById_ne p _ _ rm ti (by decide) h2 h6
  have n34 := getElementById_ne p _ _ ri tt (by decide) h3 h4
  have n35 := getElementById_ne p _ _ ri tm (by decide) h3 h5
  have n36 := getElementById_ne p _ _ ri ti (by decide) h3 h6
  have n45 := getElementById_ne p _ _ tt tm (by decide) h4 h5
  have n46 := getElementById_ne p _ _ tt ti (by decide) h4 h6
  have n56 := getElementById_ne p _ _ tm ti (by decide) h5 h6
  have hR : tt ∉ eventPath p rt →
      clickListeners (advanceTo t (App.onDOMContentLoaded p).page) rt =
        [⟨rt, "click", Handler.resourcesClick (some rm) (some ri)⟩] := by
    intro hno
    obtain ⟨rest, hcl, hrest⟩ := resources_clickListeners p t hl rt rm ri h1 h2 h3
    have hnil : rest = [] := by
      apply List.eq_nil_iff_forall_not_mem.mpr
      intro l hmem
      obtain ⟨t0, _, _, g1, _, _, _, hin⟩ := hrest l hmem
      rw [h4] at g1
      rw [← Option.some.inj g1] at hin
      exact hno hin
    rw [hcl, hnil]
  have hT : rt ∉ eventPath p tt →
      clickListeners (advanceTo t (App.onDOMContentLoaded p).page) tt =
        [⟨tt, "click", Handler.toolsClick (some tm) (some ti)⟩] := by
    intro hno
    obtain ⟨rest, hcl, hrest⟩ := tools_clickListeners p t hl tt tm ti h4 h5 h6
    have hnil : rest = [] := by
      apply List.eq_nil_iff_forall_not_mem.mpr
      intro l hmem
      obtain ⟨t0, _, _, g1, _, _, _, hin⟩ := hrest l hmem
      rw [h1] at g1
      rw [← Option.some.inj g1] at hin
      exact hno hin
    rw [hcl, hnil]
  refine ⟨?_, ?_, ?_, ?_, ?_, ?_⟩
  · simp [n12, n13, n14, n15, n16, n23, n24, n25, n26, n34, n35, n36, n45, n46, n56]
  · rw [click_eq _ rt hg]
  · rw [click_eq _ tt hg]
  · intro hno
    exact ⟨frame_core _ rt rm ri tm _ hg (hR hno) (fun _ => rfl) (Ne.symm n25) (Ne.symm n35),
      frame_core _ rt rm ri ti _ hg (hR hno) (fun _ => rfl) (Ne.symm n26) (Ne.symm n36)⟩
  · intro hno
    exact ⟨frame_core _ tt tm ti rm _ hg (hT hno) (fun _ => rfl) n25 n26,
      frame_core _ tt tm ti ri _ hg (hT hno) (fun _ => rfl) n35 n36⟩
  · intro hno1 hno2
    exact independence_core _ rt rm ri tt tm ti hg (hR hno1) (hT hno2) n25 n26 n35 n36

/-- Witness of C7, amended, on `menuPage`, where no trigger is nested in
another: the two orders of clicks agree. -/
theorem toggle_independence_witness :
    4 ∉ eventPath menuPage 0 ∧ 0 ∉ eventPath menuPage 4 ∧
      click (click (advanceTo 100 (App.onDOMContentLoaded menuPage).page) 0).page 4 =
        click (click (advanceTo 100 (App.onDOMContentLoaded menuPage).page) 4).page 0 :=
  ⟨by decide, by decide,
    (toggle_independence menuPage 100 rfl 0 1 2 4 5 6 (by decide) (by decide) (by decide)
      (by decide) (by decide) (by decide)).2.2.2.2.2 (by decide) (by decide)⟩

/-- C8. Mixed scenario. For every page at time 0 without timers or listeners
that has exactly two elements `a`, `b` matching `.alert-message`, all three
elements of the resources group, the panel and the icon of the tools group
but no tools trigger: the load handler of the source-tree script raises no
error, schedules the two dismissals at 5000 so that each alert is in the
document before 5300 and out of it from 5300 on, attaches exactly one listener,
the resources click handler on the resources trigger, whose clicks toggle the
panel's `hidden` and the icon's `rotate-180` in parity; a click on any element
runs that handler once when the resources trigger is on its propagation path
(the element is the trigger or lies inside it) and runs no handler otherwise. -/
theorem mixed_scenario (p : Page) (a b rt rm ri tm ti : Nat)
    (hnow : p.now = 0) (htimers : p.timers = []) (hl : p.listeners = [])
    (halerts : querySelectorAll p "alert-message" = [a, b])
    (h1 : getElementById p "mobile-resources-toggle" = some rt)
    (h2 : getElementById p "mobile-resources-menu" = some rm)
    (h3 : getElementById p "mobile-resources-icon" = some ri)
    (h4 : getElementById p "mobile-tools-toggle" = none)
    (_h5 : getElementById p "mobile-tools-menu" = some tm)
    (_h6 : getElementById p "mobile-tools-icon" = some ti) :
    (App.onDOMContentLoaded p).error = none ∧
      (App.onDOMContentLoaded p).page.timers =
        [⟨5000, Callback.dismiss a⟩, ⟨5000, Callback.dismiss b⟩] ∧
      DismissedOnTime (App.onDOMContentLoaded p).page a ∧
      DismissedOnTime (App.onDOMContentLoaded p).page b ∧
      (App.onDOMContentLoaded p).page.listeners =
        [⟨rt, "click", Handler.resourcesClick (some rm) (some ri)⟩] ∧
      TogglesInParity (App.onDOMContentLoaded p).page rt rm ri ∧
      ∀ x, click (App.onDOMContentLoaded p).page x =
        if rt ∈ eventPath p x then
          ⟨{ (App.onDOMContentLoaded p).page with
              elements := toggled rm ri (App.onDOMContentLoaded p).page.elements }, none⟩
        else ⟨(App.onDOMContentLoaded p).page, none⟩ := by
  have hls : (App.onDOMContentLoaded p).page.listeners =
      [⟨rt, "click", Handler.resourcesClick (some rm) (some ri)⟩] := by
    rw [appHandler_eq]
    simp [hl, h1, h2, h3, h4, wiring]
  have hts : (App.onDOMContentLoaded p).page.timers = dismissals 0 [a, b] := by
    rw [appHandler_eq]
    simp [htimers, hnow, halerts]
  have hn : (App.onDOMContentLoaded p).page.now = 0 := by
    rw [appHandler_eq]
    exact hnow
  have he : (App.onDOMContentLoaded p).page.elements = p.elements := by
    rw [appHandler_eq]
  have hpar : (App.onDOMContentLoaded p).page.parents = p.parents := by
    rw [appHandler_eq]
  have hpath : ∀ x, eventPath (App.onDOMContentLoaded p).page x = eventPath p x := by
    intro x
    unfold eventPath
    rw [ancestors_congr p _ hpar]
  have hg : ∀ l ∈ (App.onDOMContentLoaded p).page.listeners, TogglesOnly l.handler := by
    intro l hmem
    rw [hls] at hmem
    rw [List.mem_singleton.mp hmem]
    exact togglesOnly_resourcesClick rm ri
  have hcl : ∀ x, clickListeners (App.onDOMContentLoaded p).page x =
      if rt ∈ eventPath p x then [⟨rt, "click", Handler.resourcesClick (some rm) (some ri)⟩]
      else [] := by
    intro x
    unfold clickListeners
    rw [hls, hpath]
    exact flatMap_filter_singleton (eventPath p x) (eventPath_nodup p x) _ rfl
  have ha : a ∈ querySelectorAll p "alert-message" := by simp [halerts]
  have hb : b ∈ querySelectorAll p "alert-message" := by simp [halerts]
  refine ⟨?_, ?_, ?_, ?_, hls, ?_, ?_⟩
  · rw [appHandler_eq]
  · rw [hts]
    rfl
  · exact dismissedOnTime_of _ [a, b] a hn hts (by simp)
      (by rw [he]; exact ((mem_querySelectorAll p _ a).mp ha).1)
  · exact dismissedOnTime_of _ [a, b] b hn hts (by simp)
      (by rw [he]; exact ((mem_querySelectorAll p _ b).mp hb).1)
  · exact togglesInParity_of _ rt rm ri (Handler.resourcesClick (some rm) (some ri)) [] hg
      (by rw [hcl, if_pos (self_mem_eventPath p rt)])
      (fun _ => rfl) (fun l hmem => absurd hmem (List.not_mem_nil l))
      (getElementById_ne p _ _ rm ri (by decide) h2 h3)
      (by rw [he]; exact getElementById_lt p _ _ h2)
      (by rw [he]; exact getElementById_lt p _ _ h3)
  · intro x
    rw [click_eq _ x hg, hcl]
    by_cases hx : rt ∈ eventPath p x
    · rw [if_pos hx, if_pos hx]
      rfl
    · rw [if_neg hx, if_neg hx]
      rfl

/-- Witness of C8 on `mixedPage`. -/
theorem mixed_scenario_witness :
    (App.onDOMContentLoaded mixedPage).error = none ∧
      (App.onDOMContentLoaded mixedPage).page.timers =
        [⟨5000, Callback.dismiss 0⟩, ⟨5000, Callback.dismiss 1⟩] ∧
      DismissedOnTime (App.onDOMContentLoaded mixedPage).page 0 ∧
      DismissedOnTime (App.onDOMContentLoaded mixedPage).page 1 ∧
      (App.onDOMContentLoaded mixedPage).page.listeners =
        [⟨2, "click", Handler.resourcesClick (some 3) (some 4)⟩] ∧
      TogglesInParity (App.onDOMContentLoaded mixedPage).page 2 3 4 ∧
      ∀ x, click (App.onDOMContentLoaded mixedPage).page x =
        if 2 ∈ eventPath mixedPage x then
          ⟨{ (App.onDOMContentLoaded mixedPage).page with
              elements := toggled 3 4 (App.onDOMContentLoaded mixedPage).page.elements }, none⟩
        else ⟨(App.onDOMContentLoaded mixedPage).page, none⟩ :=
  mixed_scenario mixedPage 0 1 2 3 4 5 6 rfl rfl rfl (by decide) (by decide) (by decide)
    (by decide) (by decide) (by decide) (by decide)

/-! ## The life cycle of an alert -/

theorem SameAlerts.refl (p : Page) : SameAlerts p p := ⟨rfl, fun _ => ⟨rfl, rfl⟩⟩

theorem SameAlerts.trans {p q r : Page} (h1 : SameAlerts p q) (h2 : SameAlerts q r) :
    SameAlerts p r :=
  ⟨h2.1.trans h1.1, fun j => ⟨(h2.2 j).1.trans (h1.2 j).1, (h2.2 j).2.trans (h1.2 j).2⟩⟩

theorem classListToggle_sameAlerts (p : Page) (el : Option Nat) (tok : String)
    (htok : "message-fade-out" ≠ tok) : SameAlerts p (classListToggle p el tok).page := by
  cases el with
  | none => exact SameAlerts.refl p
  | some i =>
    refine ⟨rfl, fun j => ⟨?_, ?_⟩⟩
    · exact isConnected_updateElement _ _ _ _ (fun _ => rfl)
    · apply hasClass_updateElement_same
      intro e
      simp [Element.toggleClass, mem_toggleToken, htok]

theorem andThen_sameAlerts (p : Page) (o : Outcome) (f : Page → Outcome)
    (h1 : SameAlerts p o.page) (h2 : ∀ q, SameAlerts q (f q).page) :
    SameAlerts p (o.andThen f).page := by
  unfold Outcome.andThen
  split
  · exact h1.trans (h2 _)
  · exact h1

theorem runHandler_sameAlerts (p : Page) (h : Handler) : SameAlerts p (runHandler p h).page := by
  cases h with
  | resourcesClick m i =>
    exact andThen_sameAlerts p _ _ (classListToggle_sameAlerts p m _ (by decide))
      (fun q => classListToggle_sameAlerts q i _ (by decide))
  | toolsClick m i =>
    exact andThen_sameAlerts p _ _ (classListToggle_sameAlerts p m _ (by decide))
      (fun q => classListToggle_sameAlerts q i _ (by decide))

theorem runAll_sameAlerts {α : Type} (f : Page → α → Outcome)
    (hf : ∀ q l, SameAlerts q (f q l).page) (ls : List α) (p : Page) :
    SameAlerts p (runAll f ls p).page := by
  unfold runAll
  have key : ∀ (ls : List α) (o : Outcome), SameAlerts p o.page →
      SameAlerts p (ls.foldl (fun o l =>
        (⟨(f o.page l).page, if o.error.isSome then o.error else (f o.page l).error⟩ :
          Outcome)) o).page := by
    intro ls
    induction ls with
    | nil =>
      intro o ho
      exact ho
    | cons l ls ih =>
      intro o ho
      exact ih _ (ho.trans (hf _ _))
  exact key ls ⟨p, none⟩ (SameAlerts.refl p)

theorem click_sameAlerts (p : Page) (x : Nat) : SameAlerts p (click p x).page :=
  runAll_sameAlerts (fun (q : Page) (l : Listener) => runHandler q l.handler)
    (fun q l => runHandler_sameAlerts q l.handler) _ p

theorem advance_of_sameAlerts (s q : Page) (h : SameAlerts s q) (hs : NoEarlyRemoval s) :
    Advance s q := by
  refine ⟨?_, ?_, ?_, ?_⟩
  · intro j hj
    rw [(h.2 j).2]
    exact hj
  · intro j hj
    rw [← (h.2 j).1]
    exact hj
  · intro j h1 h2
    rw [(h.2 j).1, h1] at h2
    exact absurd h2 (by decide)
  · intro tm htm e he hc
    rw [h.1] at htm
    rw [(h.2 e).1] at hc
    rw [(h.2 e).2]
    exact hs tm htm e he hc

theorem advance_closeMessage_of (s q : Page) (m : Nat) (hq : q.elements = s.elements)
    (hsub : ∀ u, u ∈ q.timers → u ∈ s.timers) (hs : NoEarlyRemoval s) :
    Advance s (closeMessage q m) := by
  have hc : ∀ j, isConnected (closeMessage q m).elements j = isConnected s.elements j := by
    intro j
    rw [← hq]
    exact isConnected_updateElement _ _ _ _ (fun _ => rfl)
  have hk : ∀ j, hasClass s.elements j "message-fade-out" = true →
      hasClass (closeMessage q m).elements j "message-fade-out" = true := by
    intro j hj
    rw [← hq] at hj
    exact hasClass_addClass_of _ _ _ _ _ hj
  refine ⟨hk, ?_, ?_, ?_⟩
  · intro j hj
    rw [← hc j]
    exact hj
  · intro j h1 h2
    rw [hc j, h1] at h2
    exact absurd h2 (by decide)
  · intro tm htm e he hce
    have htm2 : tm ∈ q.timers ∨ tm = ⟨q.now + 300, Callback.removeElement m⟩ := by
      simpa [closeMessage, setTimeout, classListAdd] using htm
    rcases htm2 with h | h
    · exact hk e (hs tm (hsub tm h) e he (by rw [← hc e]; exact hce))
    · rw [h] at he
      have hem : m = e := by simpa using he
      subst hem
      rw [hc, ← hq] at hce
      exact hasClass_addClass_self _ _ _ (isConnected_lt _ _ hce)

theorem advance_closeMessage (s : Page) (m : Nat) (hs : NoEarlyRemoval s) :
    Advance s (closeMessage s m) :=
  advance_closeMessage_of s s m rfl (fun _ h => h) hs

theorem advance_fire (s : Page) (tm : Timer) (htm : tm ∈ s.timers) (hs : NoEarlyRemoval s) :
    Advance s (fire s tm) := by
  have hsub : ∀ u, u ∈ s.timers.erase tm → u ∈ s.timers := fun u hu => List.mem_of_mem_erase hu
  cases tm with
  | mk d cb =>
    cases cb with
    | dismiss m =>
      exact advance_closeMessage_of s _ m rfl hsub hs
    | removeElement x =>
      have he : (fire s ⟨d, Callback.removeElement x⟩).elements =
          updateElement s.elements x Element.detach := rfl
      have ht : (fire s ⟨d, Callback.removeElement x⟩).timers =
          s.timers.erase ⟨d, Callback.removeElement x⟩ := rfl
      have hk : ∀ j, hasClass (updateElement s.elements x Element.detach) j "message-fade-out" =
          hasClass s.elements j "message-fade-out" :=
        fun j => hasClass_updateElement_same _ _ _ _ _ (fun _ => Iff.rfl)
      refine ⟨?_, ?_, ?_, ?_⟩
      · intro j hj
        rw [he, hk]
        exact hj
      · intro j hj
        rw [he, isConnected_detach] at hj
        simp at hj
        exact hj.2
      · intro j h1 h2
        rw [he, isConnected_detach, h1] at h2
        have hjx : j = x := by simpa using h2
        subst hjx
        exact hs _ htm j rfl h1
      · intro u hu e hue hc
        rw [ht] at hu
        rw [he, isConnected_detach] at hc
        simp at hc
        rw [he, hk]
        exact hs u (hsub u hu) e hue hc.2

theorem advance_applyEvent (s : Page) (ev : Event) (hs : NoEarlyRemoval s) :
    Advance s (applyEvent s ev) := by
  cases ev with
  | timer =>
    show Advance s (fireNext s)
    unfold fireNext
    cases he : earliest s.timers with
    | none => exact advance_of_sameAlerts s s (SameAlerts.refl s) hs
    | some tm => exact advance_fire s tm (earliest_mem _ _ he) hs
  | click x => exact advance_of_sameAlerts s _ (click_sameAlerts s x) hs
  | close e => exact advance_closeMessage s e hs

theorem next_of_advance (s q : Page) (h : Advance s q) (e : Nat) :
    Phase.next (phase s e) (phase q e) = true := by
  obtain ⟨h1, h2, h3, _⟩ := h
  have a1 := h1 e
  have a2 := h2 e
  have a3 := h3 e
  unfold phase
  cases hc : isConnected s.elements e <;> cases hk : hasClass s.elements e "message-fade-out" <;>
    cases hc2 : isConnected q.elements e <;>
    cases hk2 : hasClass q.elements e "message-fade-out" <;>
    simp_all [Phase.next]

/-- Along a run, no removal is pending for an element without the fade-out
class, and every element of `es0` that left the document carries the class. -/
theorem run_invariant (es0 : List Element) (events : List Event) :
    ∀ s : Page, NoEarlyRemoval s →
      (∀ e, isConnected es0 e = true → isConnected s.elements e = false →
        hasClass s.elements e "message-fade-out" = true) →
      NoEarlyRemoval (run s events) ∧
        ∀ e, isConnected es0 e = true → isConnected (run s events).elements e = false →
          hasClass (run s events).elements e "message-fade-out" = true := by
  induction events with
  | nil =>
    intro s h1 h2
    exact ⟨h1, h2⟩
  | cons ev evs ih =>
    intro s h1 h2
    obtain ⟨a1, _, a3, a4⟩ := advance_applyEvent s ev h1
    apply ih (applyEvent s ev) a4
    intro e he0 he
    cases hc : isConnected s.elements e with
    | true => exact a1 e (a3 e hc he)
    | false => exact a1 e (h2 e he0 hc)

theorem noEarlyRemoval_of_dismissals (s : Page) (n : Nat) (ms : List Nat)
    (h : s.timers = dismissals n ms) : NoEarlyRemoval s := by
  intro tm htm e he
  rw [h] at htm
  simp only [dismissals, List.mem_map] at htm
  obtain ⟨m, _, rfl⟩ := htm
  simp at he

/-- C2. Fade before removal. From the page left by the load handler of either
copy (no timer pending before it ran), along every sequence of events (the next
timer fires, an element is clicked, `closeMessage` is called on an element)
every element moves only along visible, fading out, removed: each step keeps
its phase or takes it from visible to fading out or from fading out to removed,
never from visible to removed and never out of removed; every element of the
document at load that has left the document carries the fade-out class. And
`closeMessage` itself adds the class at once, removes nothing, and schedules
the removal for a strictly later time. -/
theorem fade_before_removal (p : Page) (htimers : p.timers = []) (events : List Event)
    (ev : Event) (e : Nat) :
    Phase.next (phase (run (App.onDOMContentLoaded p).page events) e)
        (phase (applyEvent (run (App.onDOMContentLoaded p).page events) ev) e) = true ∧
      (isConnected p.elements e = true →
        isConnected (run (App.onDOMContentLoaded p).page events).elements e = false →
        hasClass (run (App.onDOMContentLoaded p).page events).elements e
          "message-fade-out" = true) ∧
      Phase.next (phase (run (Staticfiles.onDOMContentLoaded p).page events) e)
        (phase (applyEvent (run (Staticfiles.onDOMContentLoaded p).page events) ev) e) = true ∧
      (isConnected p.elements e = true →
        isConnected (run (Staticfiles.onDOMContentLoaded p).page events).elements e = false →
        hasClass (run (Staticfiles.onDOMContentLoaded p).page events).elements e
          "message-fade-out" = true) ∧
      (∀ q : Page,
        isConnected (closeMessage q e).elements e = isConnected q.elements e ∧
        (isConnected q.elements e = true →
          hasClass (closeMessage q e).elements e "message-fade-out" = true) ∧
        (⟨q.now + 300, Callback.removeElement e⟩ : Timer) ∈ (closeMessage q e).timers ∧
        q.now < q.now + 300) ∧
      Phase.next Phase.visible Phase.removed = false ∧
      (∀ x, Phase.next Phase.removed x = true → x = Phase.removed) := by
  have key : ∀ q : Page, q.elements = p.elements →
      q.timers = dismissals p.now (querySelectorAll p "alert-message") →
      Phase.next (phase (run q events) e) (phase (applyEvent (run q events) ev) e) = true ∧
      (isConnected p.elements e = true → isConnected (run q events).elements e = false →
        hasClass (run q events).elements e "message-fade-out" = true) := by
    intro q hqe hqt
    obtain ⟨i1, i2⟩ := run_invariant p.elements events q
      (noEarlyRemoval_of_dismissals q _ _ hqt)
      (by
        intro x hx hx2
        rw [hqe, hx] at hx2
        exact absurd hx2 (by decide))
    exact ⟨next_of_advance _ _ (advance_applyEvent _ ev i1) e, i2 e⟩
  obtain ⟨a1, a2⟩ := key (App.onDOMContentLoaded p).page (by rw [appHandler_eq])
    (by rw [appHandler_eq]; simp [htimers])
  obtain ⟨b1, b2⟩ := key (Staticfiles.onDOMContentLoaded p).page
    (by rw [staticHandler_eq])
    (by rw [staticHandler_eq]; simp [htimers])
  refine ⟨a1, a2, b1, b2, ?_, rfl, ?_⟩
  · intro q
    refine ⟨isConnected_updateElement _ _ _ _ (fun _ => rfl), ?_, ?_, by omega⟩
    · intro hc
      exact hasClass_addClass_self _ _ _ (isConnected_lt _ _ hc)
    · simp [closeMessage, setTimeout, classListAdd]
  · intro x hx
    cases x <;> simp [Phase.next] at hx ⊢

/-- Witness of C2 on `samplePage`: the first alert is visible, fades out when
its dismissal fires, and is removed when its removal fires. -/
theorem fade_before_removal_witness :
    [[], [Event.timer], [Event.timer, Event.click 2, Event.timer],
        [Event.timer, Event.click 2, Event.timer, Event.timer]].map
        (fun events => phase (run (App.onDOMContentLoaded samplePage).page events) 0) =
      [Phase.visible, Phase.fadingOut, Phase.fadingOut, Phase.removed] ∧
      Phase.next
        (phase (run (App.onDOMContentLoaded samplePage).page
          [Event.timer, Event.click 2, Event.timer]) 0)
        (phase (applyEvent (run (App.onDOMContentLoaded samplePage).page
          [Event.timer, Event.click 2, Event.timer]) Event.timer) 0) = true :=
  ⟨by decide,
    (fade_before_removal samplePage rfl [Event.timer, Event.click 2, Event.timer]
      Event.timer 0).1⟩

/-! ## Claims about the theme registration and the two copies -/

theorem runAll_tailwind {α : Type} (f : Page → α → Outcome)
    (hf : ∀ q l, (f q l).page.tailwind = q.tailwind) (ls : List α) (p : Page) :
    (runAll f ls p).page.tailwind = p.tailwind := by
  unfold runAll
  have key : ∀ (ls : List α) (o : Outcome), o.page.tailwind = p.tailwind →
      (ls.foldl (fun o l =>
        (⟨(f o.page l).page, if o.error.isSome then o.error else (f o.page l).error⟩ :
          Outcome)) o).page.tailwind = p.tailwind := by
    intro ls
    induction ls with
    | nil =>
      intro o ho
      exact ho
    | cons l ls ih =>
      intro o ho
      exact ih _ ((hf _ _).trans ho)
  exact key ls ⟨p, none⟩ rfl

theorem runHandler_tailwind (p : Page) (h : Handler) :
    (runHandler p h).page.tailwind = p.tailwind := by
  cases h with
  | resourcesClick m i => cases m <;> cases i <;> rfl
  | toolsClick m i => cases m <;> cases i <;> rfl

theorem applyEvent_tailwind (p : Page) (ev : Event) : (applyEvent p ev).tailwind = p.tailwind := by
  cases ev with
  | timer =>
    show (fireNext p).tailwind = p.tailwind
    unfold fireNext
    cases earliest p.timers with
    | none => rfl
    | some tm => exact (fire_frame p tm).2.1
  | click x =>
    exact runAll_tailwind (fun (q : Page) (l : Listener) => runHandler q l.handler)
      (fun q l => runHandler_tailwind q l.handler) _ p
  | close e => rfl

/-- The counterexample to C5: with `tailwind` not declared, evaluating either
copy of the script raises a ReferenceError and registers no load handler, so
that the alert of the page is never scheduled for dismissal. -/
theorem absent_tailwind_counterexample :
    (App.evalScript (Page.fresh Global.undeclared [⟨none, ["alert-message"], true⟩])).error =
        some JsError.referenceError ∧
      (App.evalScript (Page.fresh Global.undeclared
        [⟨none, ["alert-message"], true⟩])).page.documentListeners = [] ∧
      (Staticfiles.evalScript (Page.fresh Global.undeclared
        [⟨none, ["alert-message"], true⟩])).error = some JsError.referenceError ∧
      (Staticfiles.evalScript (Page.fresh Global.undeclared
        [⟨none, ["alert-message"], true⟩])).page.documentListeners = [] ∧
      (App.load Global.undeclared [⟨none, ["alert-message"], true⟩]).page.timers = [] := by
  decide

/-- C5, amended. Theme registration of either copy: when `tailwind` is bound
to an object, the configuration is assigned to it, no error is raised and
evaluation goes on to register the load handler; when `tailwind` is not
declared the assignment raises a ReferenceError, and when it is bound to
undefined or null a TypeError, the page is left as it was and the load handler
is not registered. -/
theorem theme_registration (p : Page) :
    (∀ c, p.tailwind = Global.object c →
      App.evalScript p =
        ⟨{ p with
            tailwind := Global.object (some tailwindConfig),
            documentListeners :=
              p.documentListeners ++ [⟨"DOMContentLoaded", DocHandler.appLoaded⟩] }, none⟩ ∧
      Staticfiles.evalScript p =
        ⟨{ p with
            tailwind := Global.object (some tailwindConfig),
            documentListeners :=
              p.documentListeners ++ [⟨"DOMContentLoaded", DocHandler.staticfilesLoaded⟩] },
          none⟩) ∧
    (p.tailwind = Global.undeclared →
      App.evalScript p = ⟨p, some JsError.referenceError⟩ ∧
      Staticfiles.evalScript p = ⟨p, some JsError.referenceError⟩) ∧
    (p.tailwind = Global.undefinedValue ∨ p.tailwind = Global.nullValue →
      App.evalScript p = ⟨p, some JsError.typeError⟩ ∧
      Staticfiles.evalScript p = ⟨p, some JsError.typeError⟩) := by
  refine ⟨?_, ?_, ?_⟩
  · intro c hc
    simp [App.evalScript, Staticfiles.evalScript, assignTailwindConfig, hc, Outcome.andThen,
      documentAddEventListener]
  · intro hc
    simp [App.evalScript, Staticfiles.evalScript, assignTailwindConfig, hc, Outcome.andThen]
  · rintro (hc | hc) <;>
      simp [App.evalScript, Staticfiles.evalScript, assignTailwindConfig, hc, Outcome.andThen]

/-- Witness of C5, amended, on `samplePage`, where `tailwind` is an object. -/
theorem theme_registration_witness :
    samplePage.tailwind = Global.object none ∧
      (App.evalScript samplePage).error = none ∧
      (App.evalScript samplePage).page.documentListeners =
        [⟨"DOMContentLoaded", DocHandler.appLoaded⟩] :=
  ⟨rfl,
    congrArg Outcome.error ((theme_registration samplePage).1 none rfl).1,
    congrArg (fun o => o.page.documentListeners) ((theme_registration samplePage).1 none rfl).1⟩

/-- C6. Theme contents. The configuration has `darkMode` equal to `class`;
under `theme.extend` its only palette is `dark`, with exactly the eleven
shades 50, 100, ..., 900, 950, pairwise distinct, and its only font family is
`sans` with value `['Inter', 'sans-serif']`; evaluating either copy of the
script with `tailwind` an object assigns this configuration, and no later
operation (a timer firing, a click, a call of `closeMessage`, either load
handler, either click handler, the passing of time) changes it. -/
theorem theme_contents :
    tailwindConfig.darkMode = "class" ∧
      tailwindConfig.theme.extend.colors.map Prod.fst = ["dark"] ∧
      (tailwindConfig.theme.extend.colors.lookup "dark").map (fun shades => shades.map Prod.fst) =
        some ["50", "100", "200", "300", "400", "500", "600", "700", "800", "900", "950"] ∧
      (tailwindConfig.theme.extend.colors.lookup "dark").map List.length = some 11 ∧
      ["50", "100", "200", "300", "400", "500", "600", "700", "800", "900", "950"].Nodup ∧
      tailwindConfig.theme.extend.fontFamily = [("sans", ["Inter", "sans-serif"])] ∧
      (∀ (p : Page) (c : Option Config),
        (App.evalScript { p with tailwind := Global.object c }).page.tailwind =
          Global.object (some tailwindConfig) ∧
        (Staticfiles.evalScript { p with tailwind := Global.object c }).page.tailwind =
          Global.object (some tailwindConfig)) ∧
      (∀ (p : Page) (ev : Event), (applyEvent p ev).tailwind = p.tailwind) ∧
      (∀ (p : Page) (events : List Event), (run p events).tailwind = p.tailwind) ∧
      (∀ (p : Page) (e : Nat), (closeMessage p e).tailwind = p.tailwind) ∧
      (∀ p : Page, (App.onDOMContentLoaded p).page.tailwind = p.tailwind ∧
        (Staticfiles.onDOMContentLoaded p).page.tailwind = p.tailwind) ∧
      (∀ (p : Page) (h : Handler), (runHandler p h).page.tailwind = p.tailwind) ∧
      (∀ (p : Page) (t : Nat), (advanceTo t p).tailwind = p.tailwind) := by
  refine ⟨rfl, rfl, by decide, by decide, by decide, rfl, ?_, applyEvent_tailwind, ?_,
    fun _ _ => rfl, ?_, runHandler_tailwind, fun p t => (advanceTo_frame t p).2.1⟩
  · intro p c
    exact ⟨rfl, rfl⟩
  · intro p events
    induction events generalizing p with
    | nil => rfl
    | cons ev evs ih =>
      show (run (applyEvent p ev) evs).tailwind = p.tailwind
      rw [ih, applyEvent_tailwind]
  · intro p
    rw [appHandler_eq, staticHandler_eq]
    exact ⟨rfl, rfl⟩

theorem fire_listeners (p : Page) (ls : List Listener) (tm : Timer) :
    fire { p with listeners := ls } tm = { fire p tm with listeners := ls } := by
  cases tm with
  | mk d cb => cases cb <;> rfl

theorem fireDue_listeners (fuel t : Nat) (p : Page) (ls : List Listener) :
    fireDue fuel t { p with listeners := ls } = { fireDue fuel t p with listeners := ls } := by
  induction fuel generalizing p with
  | zero => rfl
  | succ n ih =>
    unfold fireDue
    show (match earliest p.timers with
      | none => { p with listeners := ls }
      | some tm => if tm.due ≤ t then fireDue n t (fire { p with listeners := ls } tm)
          else { p with listeners := ls }) = _
    cases earliest p.timers with
    | none => rfl
    | some tm =>
      by_cases hd : tm.due ≤ t
      · simp only [hd, if_true]
        rw [fire_listeners, ih]
      · simp [hd]

theorem advanceTo_listeners (t : Nat) (p : Page) (ls : List Listener) :
    advanceTo t { p with listeners := ls } = { advanceTo t p with listeners := ls } := by
  unfold advanceTo
  show ({ fireDue (weight p.timers) t { p with listeners := ls } with
    now := max (fireDue (weight p.timers) t { p with listeners := ls }).now t } : Page) = _
  rw [fireDue_listeners]

theorem appHandler_eq_static (p : Page) :
    (App.onDOMContentLoaded p).page =
      { (Staticfiles.onDOMContentLoaded p).page with
        listeners := (App.onDOMContentLoaded p).page.listeners } := by
  rw [appHandler_eq, staticHandler_eq]

/-- C9. Equivalence of the two copies. Evaluating either copy raises the same
error, if any, and leaves the same `tailwind` binding; for every page the two
load handlers raise no error and leave pages that differ at most in the
listeners, so the same timers are pending and at every later time the same
elements and timers are found; the static-files copy attaches no listener on
any page; and on every page on which neither toggle group fully resolves the
two load handlers have the same outcome. -/
theorem copies_equivalent (p : Page) :
    (App.evalScript p).error = (Staticfiles.evalScript p).error ∧
      (App.evalScript p).page.tailwind = (Staticfiles.evalScript p).page.tailwind ∧
      (App.onDOMContentLoaded p).error = none ∧
      (Staticfiles.onDOMContentLoaded p).error = none ∧
      (App.onDOMContentLoaded p).page =
        { (Staticfiles.onDOMContentLoaded p).page with
          listeners := (App.onDOMContentLoaded p).page.listeners } ∧
      (App.onDOMContentLoaded p).page.timers = (Staticfiles.onDOMContentLoaded p).page.timers ∧
      (∀ t, (advanceTo t (App.onDOMContentLoaded p).page).elements =
          (advanceTo t (Staticfiles.onDOMContentLoaded p).page).elements ∧
        (advanceTo t (App.onDOMContentLoaded p).page).timers =
          (advanceTo t (Staticfiles.onDOMContentLoaded p).page).timers) ∧
      (Staticfiles.onDOMContentLoaded p).page.listeners = p.listeners ∧
      ((getElementById p "mobile-resources-toggle" = none ∨
          getElementById p "mobile-resources-menu" = none ∨
          getElementById p "mobile-resources-icon" = none) →
        (getElementById p "mobile-tools-toggle" = none ∨
          getElementById p "mobile-tools-menu" = none ∨
          getElementById p "mobile-tools-icon" = none) →
        App.onDOMContentLoaded p = Staticfiles.onDOMContentLoaded p) := by
  refine ⟨?_, ?_, ?_, ?_, appHandler_eq_static p, ?_, ?_, ?_, ?_⟩
  · cases h : p.tailwind <;>
      simp [App.evalScript, Staticfiles.evalScript, assignTailwindConfig, h, Outcome.andThen]
  · cases h : p.tailwind <;>
      simp [App.evalScript, Staticfiles.evalScript, assignTailwindConfig, h, Outcome.andThen,
        documentAddEventListener]
  · rw [appHandler_eq]
  · rw [staticHandler_eq]
  · rw [appHandler_eq, staticHandler_eq]
  · intro t
    rw [appHandler_eq_static p, advanceTo_listeners]
    exact ⟨rfl, rfl⟩
  · rw [staticHandler_eq]
  · intro hr ht
    have wr : ∀ h, wiring (getElementById p "mobile-resources-toggle")
        (getElementById p "mobile-resources-menu")
        (getElementById p "mobile-resources-icon") h = [] := by
      intro h
      rcases hr with h1 | h1 | h1 <;> rw [h1] <;>
        cases getElementById p "mobile-resources-toggle" <;>
        cases getElementById p "mobile-resources-menu" <;>
        cases getElementById p "mobile-resources-icon" <;> rfl
    have wt : ∀ h, wiring (getElementById p "mobile-tools-toggle")
        (getElementById p "mobile-tools-menu")
        (getElementById p "mobile-tools-icon") h = [] := by
      intro h
      rcases ht with h1 | h1 | h1 <;> rw [h1] <;>
        cases getElementById p "mobile-tools-toggle" <;>
        cases getElementById p "mobile-tools-menu" <;>
        cases getElementById p "mobile-tools-icon" <;> rfl
    rw [appHandler_eq, staticHandler_eq, wr, wt]
    simp

/-- Witness of C9 on `plainPage`: the two load handlers agree. -/
theorem copies_equivalent_witness :
    App.onDOMContentLoaded plainPage = Staticfiles.onDOMContentLoaded plainPage :=
  (copies_equivalent plainPage).2.2.2.2.2.2.2.2 (Or.inr (Or.inr (by decide)))
    (Or.inl (by decide))

/-! ## Adequacy of the fuel of `advanceTo` and of the page load -/

theorem weight_erase (ts : List Timer) (tm : Timer) (h : tm ∈ ts) :
    tm.callback.weight + weight (ts.erase tm) = weight ts := by
  induction ts with
  | nil => simp at h
  | cons t ts ih =>
    by_cases ht : t = tm
    · subst ht
      simp [weight]
    · have hm : tm ∈ ts := by
        rcases List.mem_cons.mp h with h1 | h1
        · exact absurd h1.symm ht
        · exact h1
      have hne : ¬ (t == tm) = true := by simpa using ht
      rw [List.erase_cons_tail hne]
      have e1 : weight (t :: ts.erase tm) = t.callback.weight + weight (ts.erase tm) := by
        simp [weight]
      have e2 : weight (t :: ts) = t.callback.weight + weight ts := by
        simp [weight]
      rw [e1, e2, ← ih hm]
      omega

theorem weight_fire (p : Page) (tm : Timer) (h : tm ∈ p.timers) :
    weight (fire p tm).timers < weight p.timers := by
  have hw := weight_erase p.timers tm h
  cases tm with
  | mk d cb =>
    cases cb with
    | dismiss m =>
      have e : weight (fire p ⟨d, Callback.dismiss m⟩).timers =
          weight (p.timers.erase ⟨d, Callback.dismiss m⟩) + 1 := by
        simp [fire, runCallback, closeMessage, classListAdd, setTimeout, weight,
          Callback.weight]
      rw [e]
      simp only [Callback.weight] at hw
      omega
    | removeElement x =>
      have e : weight (fire p ⟨d, Callback.removeElement x⟩).timers =
          weight (p.timers.erase ⟨d, Callback.removeElement x⟩) := rfl
      rw [e]
      simp only [Callback.weight] at hw
      omega

theorem earliest_le (ts : List Timer) (tm : Timer) (h : earliest ts = some tm) :
    ∀ u ∈ ts, tm.due ≤ u.due := by
  induction ts generalizing tm with
  | nil => simp [earliest] at h
  | cons t ts ih =>
    unfold earliest at h
    cases he : earliest ts with
    | none =>
      simp [he] at h
      subst h
      have : ts = [] := earliest_eq_none ts he
      subst this
      intro u hu
      simp at hu
      subst hu
      exact Nat.le_refl _
    | some v =>
      simp only [he] at h
      have hv := ih v he
      by_cases hle : t.due ≤ v.due
      · simp [hle] at h
        subst h
        intro u hu
        rcases List.mem_cons.mp hu with h1 | h1
        · subst h1
          exact Nat.le_refl _
        · exact Nat.le_trans hle (hv u h1)
      · simp [hle] at h
        subst h
        intro u hu
        rcases List.mem_cons.mp hu with h1 | h1
        · subst h1
          omega
        · exact hv u h1

/-- With fuel at least the weight of the pending timers, `fireDue` fires every
timer due by `t`: none of those left is due at or before `t`. -/
theorem fireDue_settled (fuel t : Nat) (p : Page) (h : weight p.timers ≤ fuel) :
    ∀ u ∈ (fireDue fuel t p).timers, t < u.due := by
  induction fuel generalizing p with
  | zero =>
    have hnil : p.timers = [] := by
      cases hts : p.timers with
      | nil => rfl
      | cons a as =>
        rw [hts] at h
        have : 0 < weight (a :: as) := by
          have e : weight (a :: as) = a.callback.weight + weight as := by simp [weight]
          rw [e]
          cases a.callback <;> simp [Callback.weight]
        omega
    intro u hu
    rw [show fireDue 0 t p = p from rfl, hnil] at hu
    simp at hu
  | succ n ih =>
    unfold fireDue
    cases he : earliest p.timers with
    | none =>
      intro u hu
      rw [earliest_eq_none _ he] at hu
      simp at hu
    | some tm =>
      by_cases hd : tm.due ≤ t
      · simp only [hd, if_true]
        apply ih
        have := weight_fire p tm (earliest_mem _ _ he)
        omega
      · simp only [hd, if_false]
        intro u hu
        have := earliest_le _ _ he u hu
        omega

/-- After `advanceTo t` no pending timer is due at or before `t`. -/
theorem advanceTo_settled (t : Nat) (p : Page) : ∀ u ∈ (advanceTo t p).timers, t < u.due :=
  fireDue_settled _ t p (Nat.le_refl _)

/-- The page load of the source-tree script with `tailwind` an object: the
script registers its load handler and the event runs it, without error. -/
theorem appLoad_eq (c : Option Config) (es : List Element) :
    App.load (Global.object c) es =
      App.onDOMContentLoaded
        { Page.fresh (Global.object (some tailwindConfig)) es with
          documentListeners := [⟨"DOMContentLoaded", DocHandler.appLoaded⟩] } := by
  rw [appHandler_eq]
  simp [App.load, App.evalScript, assignTailwindConfig, Outcome.andThen, Page.fresh,
    documentAddEventListener, dispatchDOMContentLoaded, runAll, runDocHandler,
    appHandler_eq]

/-- The page load of the static-files script with `tailwind` an object. -/
theorem staticLoad_eq (c : Option Config) (es : List Element) :
    Staticfiles.load (Global.object c) es =
      Staticfiles.onDOMContentLoaded
        { Page.fresh (Global.object (some tailwindConfig)) es with
          documentListeners := [⟨"DOMContentLoaded", DocHandler.staticfilesLoaded⟩] } := by
  rw [staticHandler_eq]
  simp [Staticfiles.load, Staticfiles.evalScript, assignTailwindConfig, Outcome.andThen,
    Page.fresh, documentAddEventListener, dispatchDOMContentLoaded, runAll, runDocHandler,
    staticHandler_eq]

end AeroControl
